import Mathlib

/-!
Verification of the wire-protocol core of the `mc-proxy` repository.

The Rust sources are shallowly embedded: byte streams are lists of
naturals (each element models a `u8`, hence is `< 256` on every real
stream), fallible readers return `Except DecodeError (value × rest)`
where `rest` is the unconsumed suffix of the stream, and stateful
codecs pass their state explicitly.  Machine integers use `Nat`/`Int`
with explicit `% 2 ^ w` at the points where Rust wraps.

The repository ships `encoder.rs`, the `minecraft-protocol-derive`
macro crate, the `data/` module (chat `Message`, `ServerStatus`) and
the `nbt` module outside of the sources given under `src/`; the
definitions for those parts are modelled from the specification and
say so in their doc comments.  Everything else is translated from the
Rust sources.
-/

namespace MCProxy

/-- A byte stream: each element models one Rust `u8`. -/
abbrev Bytes := List Nat

/-- Decode-error taxonomy after `error.rs` `DecodeError`.  IO errors are
collapsed to their `ErrorKind`; reads past the end of a stream produce
`ioUnexpectedEof`, matching `std::io::ErrorKind::UnexpectedEof`. -/
inductive DecodeError where
  | unknownPacketType (typeId : Nat)
  | stringTooLong (length : Nat) (maxLength : Nat)
  | ioUnexpectedEof
  | jsonError
  | utf8Error
  | nonBoolValue
  | uuidParseError
  | unknownEnumType (typeId : Nat)
  | tagDecodeError
  | varIntTooLong (maxBytes : Nat)
  | dataSentDuringHandshake
  | invalidPacketLength
  deriving DecidableEq, Repr

/-- Encode-error taxonomy after `error.rs` `EncodeError`. -/
inductive EncodeError where
  | stringTooLong (length : Nat) (maxLength : Nat)
  | ioError
  | jsonError
  deriving DecidableEq, Repr

/-- Source model: `error.rs` `DecodeError::is_eof_error` — true exactly
for an IO error whose kind is `UnexpectedEof`. -/
def DecodeError.isEofError : DecodeError → Bool
  | .ioUnexpectedEof => true
  | _ => false

/-- Reinterpret a `w`-bit unsigned value as the signed two's-complement
integer Rust produces when the accumulator type is `i32`/`i64`. -/
def toSigned (w : Nat) (u : Nat) : Int :=
  if u < 2 ^ (w - 1) then (u : Int) else (u : Int) - 2 ^ w

/-- The `w`-bit unsigned bit pattern of a signed integer (Rust
`as u32` / `as u64` on an `iN` of the same width). -/
def toUnsigned (w : Nat) (n : Int) : Nat :=
  (n % 2 ^ w).toNat

/-- The `i32 as usize` cast on a 64-bit target: sign-extend to 64 bits
and reinterpret as unsigned. -/
def usizeOfI32 (n : Int) : Nat :=
  (n % 2 ^ 64).toNat

/-- Source model: the loop body of the `read_signed_var_int!` macro in
`decoder.rs`.  Reads one byte per iteration, ORs its low seven bits into
the accumulator shifted left by `7 * numRead` (with the shift amount and
the result wrapped exactly as `overflowing_shl` on a `w`-bit integer
wraps them), and errors with `VarIntTooLong` only after `maxBytes + 1`
bytes have been consumed without a terminator.  An empty stream models
`read_u8` failing with `UnexpectedEof`. -/
def readVarIntCore (maxBytes w : Nat) : Bytes → Nat → Nat → Except DecodeError (Nat × Bytes)
  | [], _, _ => .error .ioUnexpectedEof
  | read :: rest, numRead, result =>
    let value := read &&& 127
    let result := result ||| (value <<< (7 * numRead % w)) % 2 ^ w
    let numRead := numRead + 1
    if numRead > maxBytes then
      .error (.varIntTooLong maxBytes)
    else if read &&& 128 = 0 then
      .ok (result, rest)
    else
      readVarIntCore maxBytes w rest numRead result

/-- Source model: `decoder.rs` `read_var_i32` (5-byte 32-bit VarInt). -/
def readVarI32 (s : Bytes) : Except DecodeError (Int × Bytes) :=
  (readVarIntCore 5 32 s 0 0).map fun p => (toSigned 32 p.1, p.2)

/-- Source model: `decoder.rs` `read_var_i64` (10-byte 64-bit VarLong). -/
def readVarI64 (s : Bytes) : Except DecodeError (Int × Bytes) :=
  (readVarIntCore 10 64 s 0 0).map fun p => (toSigned 64 p.1, p.2)

/-- Source model: the loop body of the `read_signed_var_int!` macro in
`tokio.rs`.  Identical to the synchronous loop except that the length
guard is the literal `num_read > 5` while the error payload still
carries `$max_bytes`. -/
def readVarIntCoreAsync (maxBytes w : Nat) : Bytes → Nat → Nat → Except DecodeError (Nat × Bytes)
  | [], _, _ => .error .ioUnexpectedEof
  | read :: rest, numRead, result =>
    let value := read &&& 127
    let result := result ||| (value <<< (7 * numRead % w)) % 2 ^ w
    let numRead := numRead + 1
    if numRead > 5 then
      .error (.varIntTooLong maxBytes)
    else if read &&& 128 = 0 then
      .ok (result, rest)
    else
      readVarIntCoreAsync maxBytes w rest numRead result

/-- Source model: `tokio.rs` `read_var_i32_async`. -/
def readVarI32Async (s : Bytes) : Except DecodeError (Int × Bytes) :=
  (readVarIntCoreAsync 5 32 s 0 0).map fun p => (toSigned 32 p.1, p.2)

/-- Source model: `tokio.rs` `read_var_i64_async`. -/
def readVarI64Async (s : Bytes) : Except DecodeError (Int × Bytes) :=
  (readVarIntCoreAsync 10 64 s 0 0).map fun p => (toSigned 64 p.1, p.2)

instance {ε α : Type _} [DecidableEq ε] [DecidableEq α] : DecidableEq (Except ε α) := fun x y =>
  match x, y with
  | .ok a, .ok b =>
    if h : a = b then .isTrue (by rw [h]) else .isFalse (fun hh => h (Except.ok.inj hh))
  | .error a, .error b =>
    if h : a = b then .isTrue (by rw [h]) else .isFalse (fun hh => h (Except.error.inj hh))
  | .ok _, .error _ => .isFalse (fun hh => Except.noConfusion hh)
  | .error _, .ok _ => .isFalse (fun hh => Except.noConfusion hh)

/-- C4 counterexample: the claim quantifies over sequences of length ≥ 5,
but on the 5-byte all-continuation input the decoder loops for a sixth
`read_u8`, which fails with `UnexpectedEof` — not `VarIntTooLong`.  The
`VarIntTooLong` guard (`num_read > 5`) can only fire once a sixth byte
has been read successfully. -/
theorem var_i32_five_continuation_eof :
    readVarI32 [255, 255, 255, 255, 255] = .error .ioUnexpectedEof ∧
      readVarI32 [255, 255, 255, 255, 255] ≠ .error (.varIntTooLong 5) := by
  constructor
  · rfl
  · decide

/-- C4 amended: for every byte sequence of length ≥ 6 all of whose bytes
have the continuation bit set, `read_var_i32` fails with
`VarIntTooLong{max_bytes: 5}` (a 5-byte such sequence instead surfaces
the short read of the sixth byte). -/
theorem var_i32_six_continuation_too_long (s : Bytes) (hlen : 6 ≤ s.length)
    (hall : ∀ b ∈ s, b &&& 128 ≠ 0) :
    readVarI32 s = .error (.varIntTooLong 5) := by
  match s with
  | [] | [_] | [_, _] | [_, _, _] | [_, _, _, _] | [_, _, _, _, _] => simp at hlen
  | a :: b :: c :: d :: e :: f :: rest =>
    have ha := hall a (by simp)
    have hb := hall b (by simp)
    have hc := hall c (by simp)
    have hd := hall d (by simp)
    have he := hall e (by simp)
    simp [readVarI32, readVarIntCore, Except.map, ha, hb, hc, hd, he]

/-- Witness for `var_i32_six_continuation_too_long` at a concrete
6-byte all-continuation input. -/
theorem var_i32_six_continuation_too_long_witness :
    (6 ≤ ([255, 255, 255, 255, 255, 255] : Bytes).length ∧
        ∀ b ∈ ([255, 255, 255, 255, 255, 255] : Bytes), b &&& 128 ≠ 0) ∧
      readVarI32 [255, 255, 255, 255, 255, 255] = .error (.varIntTooLong 5) :=
  ⟨⟨by decide, by decide⟩,
    var_i32_six_continuation_too_long [255, 255, 255, 255, 255, 255] (by decide) (by decide)⟩

/-- C5: the synchronous VarLong decoder accepts a valid 6-byte VarLong
(terminator within the first 10 bytes, here the value `2^35`) and a
valid 10-byte VarLong, but the asynchronous `read_var_i64_async` in
`tokio.rs` rejects the very same 6-byte input with
`VarIntTooLong{max_bytes: 10}`: its macro hardcodes the literal guard
`num_read > 5` instead of using `$max_bytes`.  This contradicts both
the spec and the error payload the async decoder itself reports. -/
theorem var_i64_async_bound_mismatch :
    readVarI64 [128, 128, 128, 128, 128, 1] = .ok (34359738368, []) ∧
      readVarI64 [255, 255, 255, 255, 255, 255, 255, 255, 255, 1] = .ok (-1, []) ∧
      readVarI64Async [128, 128, 128, 128, 128, 1] = .error (.varIntTooLong 10) := by
  refine ⟨rfl, rfl, rfl⟩

/-- C9: the 32-bit VarInt decoder accepts non-canonical encodings — any
5-byte sequence whose fifth byte has the continuation bit clear decodes
successfully (data bits shifted past bit 31 are discarded by
`overflowing_shl`), and the two distinct wire sequences
`FF FF FF FF 7F` and `FF FF FF FF 0F` both decode to `-1`, so decoding
is not injective and decode-then-encode is not the identity on wire
bytes. -/
theorem var_i32_non_canonical_collision :
    (∀ a b c d e rest, e &&& 128 = 0 →
        ∃ v r, readVarI32 (a :: b :: c :: d :: e :: rest) = .ok (v, r)) ∧
      readVarI32 [255, 255, 255, 255, 127] = .ok (-1, []) ∧
      readVarI32 [255, 255, 255, 255, 15] = .ok (-1, []) ∧
      ([255, 255, 255, 255, 127] : Bytes) ≠ [255, 255, 255, 255, 15] := by
  refine ⟨?_, rfl, rfl, by decide⟩
  intro a b c d e rest he
  by_cases h1 : a &&& 128 = 0 <;> by_cases h2 : b &&& 128 = 0 <;>
    by_cases h3 : c &&& 128 = 0 <;> by_cases h4 : d &&& 128 = 0 <;>
    simp [readVarI32, readVarIntCore, h1, h2, h3, h4, he] <;>
    exact ⟨_, _, rfl⟩

/-- Witness for `var_i32_non_canonical_collision` at a concrete 5-byte
input with terminating fifth byte. -/
theorem var_i32_non_canonical_collision_witness :
    (0 : Nat) &&& 128 = 0 ∧
      ∃ v r, readVarI32 [1, 1, 1, 1, 0] = .ok (v, r) :=
  ⟨by decide, var_i32_non_canonical_collision.1 1 1 1 1 0 [] (by decide)⟩

/-- Modelled from the spec: `encoder.rs` is not under `src/`.  Spec 4.A
describes the VarInt emit loop: emit `((n & 0x7F) | 0x80)` while
unsigned-shifting `n` right by 7, and emit the remaining value without
the high bit once it fits in 7 bits. -/
def encodeVarLoop (u : Nat) : Bytes :=
  if u < 128 then [u] else ((u &&& 127) ||| 128) :: encodeVarLoop (u >>> 7)
  decreasing_by
    simp only [Nat.shiftRight_eq_div_pow]
    omega

/-- Modelled from the spec: `var_int::encode` on an `i32` operates on the
unsigned 32-bit bit pattern of the value. -/
def writeVarI32 (n : Int) : Bytes :=
  encodeVarLoop (toUnsigned 32 n)

theorem lor_shiftLeft_disjoint : ∀ (k a b : Nat), a < 2 ^ k → a ||| b <<< k = a + b <<< k
  | 0, a, b, h => by
    have ha : a = 0 := Nat.lt_one_iff.mp (by simpa using h)
    simp [ha]
  | k + 1, a, b, h => by
    have hbit : Nat.bit (a.testBit 0) (a >>> 1) = a := Nat.bit_testBit_zero_shiftRight_one a
    have hval : 2 * (a >>> 1) + (a.testBit 0).toNat = a := by
      have := hbit
      rwa [Nat.bit_val] at this
    have hsh : b <<< (k + 1) = Nat.bit false (b <<< k) := by
      rw [Nat.shiftLeft_succ, Nat.bit_val]
      simp
    have hlt : a >>> 1 < 2 ^ k := by
      rw [Nat.shiftRight_one]
      have hp : 2 ^ (k + 1) = 2 * 2 ^ k := by ring
      omega
    have ih := lor_shiftLeft_disjoint k (a >>> 1) b hlt
    calc a ||| b <<< (k + 1)
        = Nat.bit (a.testBit 0) (a >>> 1) ||| Nat.bit false (b <<< k) := by rw [hbit, hsh]
      _ = Nat.bit (a.testBit 0 || false) ((a >>> 1) ||| b <<< k) := Nat.lor_bit ..
      _ = Nat.bit (a.testBit 0) ((a >>> 1) + b <<< k) := by rw [Bool.or_false, ih]
      _ = a + b <<< (k + 1) := by
          rw [Nat.bit_val, Nat.shiftLeft_succ]
          omega

theorem or_shiftLeft_distrib (a b k : Nat) : (a ||| b) <<< k = a <<< k ||| b <<< k := by
  apply Nat.eq_of_testBit_eq
  intro i
  simp [Nat.testBit_shiftLeft, Nat.testBit_or, Bool.and_or_distrib_left]

theorem and_or_distrib_r (x y z : Nat) : (x ||| y) &&& z = (x &&& z) ||| (y &&& z) := by
  apply Nat.eq_of_testBit_eq
  intro i
  simp [Nat.testBit_and, Nat.testBit_or, Bool.and_or_distrib_right]

theorem and_127_eq_mod (u : Nat) : u &&& 127 = u % 128 := by
  have := Nat.and_pow_two_sub_one_eq_mod u 7
  norm_num at this
  exact this

theorem and_128_of_lt (u : Nat) (h : u < 128) : u &&& 128 = 0 := by
  have h7 : u.testBit 7 = false := Nat.testBit_eq_false_of_lt (by norm_num; omega)
  have := Nat.and_two_pow u 7
  norm_num at this
  simp [this, h7]

theorem encodeVarLoop_length : ∀ (k u : Nat), u < 2 ^ (7 * (k + 1)) →
    (encodeVarLoop u).length ≤ k + 1
  | 0, u, h => by
    rw [encodeVarLoop]
    have : u < 128 := by norm_num at h; omega
    simp [this]
  | k + 1, u, h => by
    rw [encodeVarLoop]
    by_cases hu : u < 128
    · simp [hu]
    · simp only [hu, if_false, List.length_cons]
      have hlt : u >>> 7 < 2 ^ (7 * (k + 1)) := by
        rw [Nat.shiftRight_eq_div_pow]
        have hp : 2 ^ (7 * (k + 2)) = 2 ^ (7 * (k + 1)) * 2 ^ 7 := by ring
        rw [hp] at h
        norm_num at h ⊢
        omega
      have := encodeVarLoop_length k (u >>> 7) hlt
      omega

/-- Round-trip of the decode loop over the spec encoder, generalized over
the loop counter and accumulator. -/
theorem readVarIntCore_encodeVarLoop (maxB w : Nat) :
    ∀ (u numRead acc : Nat) (rest : Bytes),
      u < 2 ^ (w - 7 * numRead) →
      numRead + (encodeVarLoop u).length ≤ maxB →
      readVarIntCore maxB w (encodeVarLoop u ++ rest) numRead acc
        = .ok (acc ||| u <<< (7 * numRead), rest)
  | u, numRead, acc, rest, hw, hbytes => by
    rw [encodeVarLoop] at hbytes ⊢
    by_cases hu : u < 128
    · simp only [hu, if_true, List.length_cons, List.length_nil] at hbytes ⊢
      rw [List.cons_append, List.nil_append, readVarIntCore]
      have hand : u &&& 127 = u := by rw [and_127_eq_mod]; omega
      have hterm : u &&& 128 = 0 := and_128_of_lt u hu
      have hnr : ¬(numRead + 1 > maxB) := by omega
      simp only [hand, hterm, hnr, if_false, if_true, if_pos rfl]
      rcases Nat.eq_zero_or_pos u with hz | hpos
      · simp [hz]
      · have hwgt : 7 * numRead < w := by
          by_contra hge
          have : w - 7 * numRead = 0 := by omega
          rw [this] at hw
          omega
        have hmod : 7 * numRead % w = 7 * numRead := Nat.mod_eq_of_lt hwgt
        have hshift : u <<< (7 * numRead) < 2 ^ w := by
          rw [Nat.shiftLeft_eq]
          calc u * 2 ^ (7 * numRead) < 2 ^ (w - 7 * numRead) * 2 ^ (7 * numRead) := by
                exact (Nat.mul_lt_mul_right (Nat.two_pow_pos _)).mpr hw
            _ = 2 ^ w := by rw [← Nat.pow_add]; congr 1; omega
        rw [hmod, Nat.mod_eq_of_lt hshift]
    · simp only [hu, if_false, List.length_cons] at hbytes ⊢
      rw [List.cons_append, readVarIntCore]
      have hwsub : 8 ≤ w - 7 * numRead := by
        by_contra hlt
        have : 2 ^ (w - 7 * numRead) ≤ 2 ^ 7 := Nat.pow_le_pow_right (by omega) (by omega)
        omega
      have hwgt : 7 * numRead + 7 < w := by omega
      have hb127 : ((u &&& 127) ||| 128) &&& 127 = u &&& 127 := by
        rw [and_or_distrib_r, Nat.and_assoc,
          (by decide : (127 : Nat) &&& 127 = 127), (by decide : (128 : Nat) &&& 127 = 0),
          Nat.or_zero]
      have hb128 : ¬(((u &&& 127) ||| 128) &&& 128 = 0) := by
        rw [and_or_distrib_r, Nat.and_assoc,
          (by decide : (127 : Nat) &&& 128 = 0), (by decide : (128 : Nat) &&& 128 = 128),
          Nat.and_zero, Nat.zero_or]
        decide
      have hlen1 : 1 ≤ (encodeVarLoop (u >>> 7)).length := by
        rw [encodeVarLoop]
        by_cases h : u >>> 7 < 128 <;> simp [h]
      have hnr : ¬(numRead + 1 > maxB) := by omega
      simp only [hb127, hb128, hnr, if_false]
      have hmod : 7 * numRead % w = 7 * numRead := Nat.mod_eq_of_lt (by omega)
      have hchunk : (u &&& 127) <<< (7 * numRead) < 2 ^ w := by
        rw [Nat.shiftLeft_eq, and_127_eq_mod]
        calc u % 128 * 2 ^ (7 * numRead) < 128 * 2 ^ (7 * numRead) := by
              exact (Nat.mul_lt_mul_right (Nat.two_pow_pos _)).mpr (Nat.mod_lt u (by norm_num))
          _ ≤ 2 ^ (w - 7 * numRead) * 2 ^ (7 * numRead) := by
              apply Nat.mul_le_mul_right
              calc (128 : Nat) = 2 ^ 7 := by norm_num
                _ ≤ 2 ^ (w - 7 * numRead) := Nat.pow_le_pow_right (by omega) (by omega)
          _ = 2 ^ w := by rw [← Nat.pow_add]; congr 1; omega
      have hw7 : u >>> 7 < 2 ^ (w - 7 * (numRead + 1)) := by
        rw [Nat.shiftRight_eq_div_pow]
        have : 2 ^ (w - 7 * numRead) = 2 ^ (w - 7 * (numRead + 1)) * 2 ^ 7 := by
          rw [← Nat.pow_add]
          congr 1
          omega
        rw [this] at hw
        norm_num at hw ⊢
        omega
      have hbytes7 : numRead + 1 + (encodeVarLoop (u >>> 7)).length ≤ maxB := by omega
      have ih := readVarIntCore_encodeVarLoop maxB w (u >>> 7) (numRead + 1)
        (acc ||| ((u &&& 127) <<< (7 * numRead % w)) % 2 ^ w) rest hw7 hbytes7
      rw [ih, hmod, Nat.mod_eq_of_lt hchunk]
      congr 2
      rw [Nat.or_assoc]
      congr 1
      have hdecomp : (u &&& 127) ||| (u >>> 7) <<< 7 = u := by
        rw [and_127_eq_mod, lor_shiftLeft_disjoint 7 (u % 128) (u >>> 7) (by norm_num; omega)]
        rw [Nat.shiftLeft_eq, Nat.shiftRight_eq_div_pow]
        norm_num
        omega
      calc (u &&& 127) <<< (7 * numRead) ||| u >>> 7 <<< (7 * (numRead + 1))
          = (u &&& 127) <<< (7 * numRead) ||| (u >>> 7 <<< 7) <<< (7 * numRead) := by
            rw [← Nat.shiftLeft_add]
            congr 2
            ring
        _ = ((u &&& 127) ||| u >>> 7 <<< 7) <<< (7 * numRead) := by
            rw [or_shiftLeft_distrib]
        _ = u <<< (7 * numRead) := by rw [hdecomp]
termination_by u => u
decreasing_by
  simp only [Nat.shiftRight_eq_div_pow]
  omega

/-- Round-trip of the 32-bit VarInt codec for every in-range `i32`. -/
theorem readVarI32_writeVarI32 (n : Int) (hlo : -(2 ^ 31) ≤ n) (hhi : n < 2 ^ 31)
    (rest : Bytes) : readVarI32 (writeVarI32 n ++ rest) = .ok (n, rest) := by
  have hu : toUnsigned 32 n < 2 ^ 32 := by
    have := Int.emod_nonneg n (show (2 : Int) ^ 32 ≠ 0 by norm_num)
    have h2 := Int.emod_lt_of_pos n (show (0 : Int) < 2 ^ 32 by norm_num)
    simp only [toUnsigned]
    omega
  have hlen : (encodeVarLoop (toUnsigned 32 n)).length ≤ 5 := by
    have : toUnsigned 32 n < 2 ^ (7 * 5) := by
      calc toUnsigned 32 n < 2 ^ 32 := hu
        _ ≤ 2 ^ 35 := Nat.pow_le_pow_right (by norm_num) (by norm_num)
    exact encodeVarLoop_length 4 _ this
  have hcore := readVarIntCore_encodeVarLoop 5 32 (toUnsigned 32 n) 0 0 rest
    (by simpa using hu) (by simpa using hlen)
  rw [readVarI32, writeVarI32, hcore]
  simp only [Except.map, Nat.zero_or, Nat.shiftLeft_zero]
  congr 2
  have hmod : n % 2 ^ 32 = if 0 ≤ n then n else n + 2 ^ 32 := by
    norm_num
    omega
  simp only [toUnsigned, toSigned]
  split
  · rename_i hsmall
    norm_num at hmod ⊢
    omega
  · rename_i hbig
    norm_num at hmod hbig ⊢
    omega

/-- The `usize as i32` cast (used on buffer lengths before VarInt
encoding): truncate to 32 bits and reinterpret as signed. -/
def natAsI32 (n : Nat) : Int :=
  toSigned 32 (n % 2 ^ 32)

/-- Source model: `read_u8` on a byte stream. -/
def readU8 : Bytes → Except DecodeError (Nat × Bytes)
  | [] => .error .ioUnexpectedEof
  | b :: rest => .ok (b, rest)

/-- Source model: `Read::read_exact` into a buffer of `n` bytes. -/
def readExact (n : Nat) (s : Bytes) : Except DecodeError (Bytes × Bytes) :=
  if n ≤ s.length then .ok (s.take n, s.drop n) else .error .ioUnexpectedEof

/-- Source model: `read_bool` in `decoder.rs`: one byte, only 0 or 1 are
valid. -/
def readBool (s : Bytes) : Except DecodeError (Bool × Bytes) := do
  let (b, rest) ← readU8 s
  match b with
  | 0 => .ok (false, rest)
  | 1 => .ok (true, rest)
  | _ => .error .nonBoolValue

/-- State machine step for UTF-8 validity: `n` pending continuation
bytes, the next of which must lie in `[lo, hi]` (subsequent ones in the
generic range 128-191). -/
def utf8ValidAux : Nat → Nat → Nat → Bytes → Bool
  | 0, _, _, [] => true
  | 0, _, _, b :: rest =>
    if b < 128 then utf8ValidAux 0 0 0 rest
    else if b < 194 then false
    else if b < 224 then utf8ValidAux 1 128 191 rest
    else if b = 224 then utf8ValidAux 2 160 191 rest
    else if b = 237 then utf8ValidAux 2 128 159 rest
    else if b < 240 then utf8ValidAux 2 128 191 rest
    else if b = 240 then utf8ValidAux 3 144 191 rest
    else if b < 244 then utf8ValidAux 3 128 191 rest
    else if b = 244 then utf8ValidAux 3 128 143 rest
    else false
  | n + 1, lo, hi, b :: rest => (lo ≤ b && b ≤ hi) && utf8ValidAux n 128 191 rest
  | _ + 1, _, _, [] => false

/-- Executable model of the success condition of Rust
`String::from_utf8`: the byte list is well-formed UTF-8 (no overlong
forms, no surrogates, at most U+10FFFF).  A Rust `String` is modelled
throughout by its UTF-8 bytes, so a successful `from_utf8` returns the
input bytes unchanged. -/
def utf8Valid (s : Bytes) : Bool :=
  utf8ValidAux 0 0 0 s

/-- Source model: `read_string` in `decoder.rs`: VarInt byte length
(cast `as usize`), guarded against `max_length`, then exactly that many
bytes validated as UTF-8. -/
def readString (maxLength : Nat) (s : Bytes) : Except DecodeError (Bytes × Bytes) := do
  let (length, s) ← readVarI32 s
  let lengthU := usizeOfI32 length
  if lengthU > maxLength then
    .error (.stringTooLong lengthU maxLength)
  else do
    let (buf, rest) ← readExact lengthU s
    if utf8Valid buf then .ok (buf, rest) else .error .utf8Error

/-- Source model: `read_byte_array` in `decoder.rs`: VarInt length then
raw bytes, with no maximum-length guard. -/
def readByteArray (s : Bytes) : Except DecodeError (Bytes × Bytes) := do
  let (length, s) ← readVarI32 s
  readExact (usizeOfI32 length) s

/-- Big-endian bytes of a `width`-byte unsigned value. -/
def beBytes : Nat → Nat → Bytes
  | 0, _ => []
  | w + 1, v => beBytes w (v / 256) ++ [v % 256]

/-- Value of a big-endian byte string. -/
def beVal (l : Bytes) : Nat :=
  l.foldl (fun acc b => acc * 256 + b) 0

/-- Source model: the fixed-width big-endian reads of `byteorder`
(`read_u16`, `read_u32`, `read_u64`, ...). -/
def readBE (width : Nat) (s : Bytes) : Except DecodeError (Nat × Bytes) :=
  (readExact width s).map fun p => (beVal p.1, p.2)

/-- Source model: `impl Decoder for Uuid` in `decoder.rs`: 16 raw
bytes.  A `Uuid` is modelled by its 16-byte big-endian content. -/
def readUuid (s : Bytes) : Except DecodeError (Bytes × Bytes) :=
  readExact 16 s

/-- Source model: `rest::decode` in `decoder.rs`: `read_to_end`. -/
def readRest (s : Bytes) : Except DecodeError (Bytes × Bytes) :=
  .ok (s, [])

/-- Modelled from the spec: the string writer of the missing
`encoder.rs` — VarInt byte length then UTF-8 bytes, failing
`StringTooLong` when over the maximum. -/
def writeString (maxLength : Nat) (s : Bytes) : Except EncodeError Bytes :=
  if s.length > maxLength then .error (.stringTooLong s.length maxLength)
  else .ok (writeVarI32 (natAsI32 s.length) ++ s)

/-- Modelled from the spec: the byte-array writer of the missing
`encoder.rs` — VarInt length prefix then the bytes. -/
def writeByteArray (b : Bytes) : Bytes :=
  writeVarI32 (natAsI32 b.length) ++ b

/-- Modelled from the spec: the boolean writer — one byte, 1 or 0. -/
def writeBool (b : Bool) : Bytes :=
  [cond b 1 0]

/-- Modelled from the spec: fixed-width big-endian writers. -/
def writeBE (width v : Nat) : Bytes :=
  beBytes width v

@[simp] theorem except_bind_ok {ε α β : Type _} (a : α) (f : α → Except ε β) :
    (Except.ok a >>= f : Except ε β) = f a := rfl

@[simp] theorem except_bind_error {ε α β : Type _} (e : ε) (f : α → Except ε β) :
    (Except.error e >>= f : Except ε β) = .error e := rfl

theorem usizeOfI32_ofNat (n : Nat) (h : n < 2 ^ 31) : usizeOfI32 (n : Int) = n := by
  simp only [usizeOfI32]
  norm_num
  omega

theorem natAsI32_small (n : Nat) (h : n < 2 ^ 31) : natAsI32 n = (n : Int) := by
  simp only [natAsI32, toSigned]
  norm_num at h ⊢
  omega

theorem readExact_append (l rest : Bytes) :
    readExact l.length (l ++ rest) = .ok (l, rest) := by
  simp [readExact, List.take_left, List.drop_left]

theorem readVarI32_nat (n : Nat) (h : n < 2 ^ 31) (rest : Bytes) :
    readVarI32 (writeVarI32 (natAsI32 n) ++ rest) = .ok ((n : Int), rest) := by
  rw [natAsI32_small n h]
  apply readVarI32_writeVarI32
  · omega
  · exact_mod_cast h

theorem readString_writeString (maxLength : Nat) (s : Bytes) (rest : Bytes)
    (hlen : s.length ≤ maxLength) (hmax : maxLength ≤ 65535)
    (hutf : utf8Valid s = true) :
    writeString maxLength s = .ok (writeVarI32 (natAsI32 s.length) ++ s) ∧
      readString maxLength ((writeVarI32 (natAsI32 s.length) ++ s) ++ rest)
        = .ok (s, rest) := by
  constructor
  · simp [writeString]
    omega
  · have hsmall : s.length < 2 ^ 31 := by omega
    rw [readString, List.append_assoc, readVarI32_nat s.length hsmall]
    simp only [except_bind_ok, usizeOfI32_ofNat s.length hsmall]
    have hgt : ¬(s.length > maxLength) := by omega
    simp only [hgt, if_false, readExact_append, except_bind_ok, hutf, if_true, if_pos rfl]

theorem readByteArray_writeByteArray (b rest : Bytes) (h : b.length < 2 ^ 31) :
    readByteArray (writeByteArray b ++ rest) = .ok (b, rest) := by
  rw [writeByteArray, readByteArray, List.append_assoc, readVarI32_nat b.length h]
  simp only [except_bind_ok, usizeOfI32_ofNat b.length h, readExact_append]

theorem readBool_writeBool (b : Bool) (rest : Bytes) :
    readBool (writeBool b ++ rest) = .ok (b, rest) := by
  cases b <;> rfl

theorem beBytes_length (w v : Nat) : (beBytes w v).length = w := by
  induction w generalizing v with
  | zero => simp [beBytes]
  | succ w ih => simp [beBytes, ih]

theorem beVal_append_one (l : Bytes) (b : Nat) :
    beVal (l ++ [b]) = beVal l * 256 + b := by
  simp [beVal, List.foldl_append]

theorem beVal_beBytes (w v : Nat) (h : v < 256 ^ w) : beVal (beBytes w v) = v := by
  induction w generalizing v with
  | zero =>
    simp only [beBytes, beVal, List.foldl_nil]
    omega
  | succ w ih =>
    rw [beBytes, beVal_append_one, ih (v / 256) (by rw [Nat.pow_succ] at h; omega)]
    omega

theorem readBE_writeBE (w v : Nat) (h : v < 256 ^ w) (rest : Bytes) :
    readBE w (writeBE w v ++ rest) = .ok (v, rest) := by
  rw [readBE, writeBE]
  have := readExact_append (beBytes w v) rest
  rw [beBytes_length] at this
  rw [this]
  simp [Except.map, beVal_beBytes w v h]

theorem readUuid_append (u rest : Bytes) (h : u.length = 16) :
    readUuid (u ++ rest) = .ok (u, rest) := by
  rw [readUuid, ← h, readExact_append]

end MCProxy

namespace MCProxy

/-- Source model: `codec.rs` `MinecraftCodec` state.  The AES key is
kept as raw bytes; the external cipher and zlib collaborators (crates
`cfb8` and `flate2`) are passed as explicit function parameters where
the source calls them. -/
structure MinecraftCodec where
  cryptKey : Option Bytes
  compression : Option Nat
  receivedBuf : Bytes
  stagingBuf : Bytes
  compressionTarget : Bytes
  deriving DecidableEq, Repr

/-- Source model: `MinecraftCodec::new` / `Default`. -/
def MinecraftCodec.new : MinecraftCodec :=
  ⟨none, none, [], [], []⟩

/-- Source model: `MinecraftCodec::enable_compression`. -/
def MinecraftCodec.enableCompression (threshold : Nat) (c : MinecraftCodec) : MinecraftCodec :=
  { c with compression := some threshold }

/-- Source model: `MinecraftCodec::encode_compressed` (codec.rs lines
80-105) translated as written, including its slip: the scratch cursor
`data_length_bytes` that was evidently created to measure the VarInt
size of `data_length` is never written to — the first
`var_int_encoder::encode` call targets `output` instead — so
`data_length_bytes.position()` is still 0 when `packet_length` is
computed, and the output starts with a spurious extra VarInt. -/
def MinecraftCodec.encodeCompressed (deflate : Bytes → Bytes) (threshold : Nat)
    (output : Bytes) (c : MinecraftCodec) : Bytes × MinecraftCodec :=
  let pair :=
    if c.stagingBuf.length ≥ threshold then
      (c.stagingBuf.length, c.compressionTarget ++ deflate c.stagingBuf)
    else
      (0, c.stagingBuf)
  let dataLength := pair.1
  let data := pair.2
  let output := output ++ writeVarI32 (natAsI32 dataLength)
  let packetLength := 0 + data.length
  let output := output ++ writeVarI32 (natAsI32 packetLength)
  let output := output ++ writeVarI32 (natAsI32 dataLength)
  let output := output ++ data
  (output, { c with compressionTarget := [] })

/-- Source model: `MinecraftCodec::encode_uncompressed`. -/
def MinecraftCodec.encodeUncompressed (output : Bytes) (c : MinecraftCodec) : Bytes :=
  output ++ writeVarI32 (natAsI32 c.stagingBuf.length) ++ c.stagingBuf

/-- Source model: `MinecraftCodec::encode`.  The body staged by
`packet.encode(&mut self.staging_buf)` arrives as `body` (an encode
error aborts before framing, as the `?` does); when a key is set the
source encrypts the whole `output` buffer in place with a cipher
recreated from the key, modelled by the `encrypt` parameter. -/
def MinecraftCodec.encode (deflate : Bytes → Bytes) (encrypt : Bytes → Bytes → Bytes)
    (body : Except EncodeError Bytes) (output : Bytes) (c : MinecraftCodec) :
    Except EncodeError (Bytes × MinecraftCodec) := do
  let bodyBytes ← body
  let c := { c with stagingBuf := c.stagingBuf ++ bodyBytes }
  let res :=
    match c.compression with
    | some threshold => c.encodeCompressed deflate threshold output
    | none => (c.encodeUncompressed output, c)
  let output :=
    match res.2.cryptKey with
    | some key => encrypt key res.1
    | none => res.1
  .ok (output, { res.2 with stagingBuf := [] })

/-- Source model: `MinecraftCodec::accept`: append the new bytes to the
receive buffer and, when a key is set, decrypt only the newly appended
range (the external CFB8 cipher is the `decrypt` parameter). -/
def MinecraftCodec.accept (decrypt : Bytes → Bytes → Bytes) (bytes : Bytes)
    (c : MinecraftCodec) : MinecraftCodec :=
  match c.cryptKey with
  | some key => { c with receivedBuf := c.receivedBuf ++ decrypt key bytes }
  | none => { c with receivedBuf := c.receivedBuf ++ bytes }

/-- Source model: `MinecraftCodec::next_packet`.  `decode` stands for
`T::decode` run on a cursor over the frame body (returning the unread
suffix, which the source ignores), `inflate` for the external flate2
`ZlibDecoder::read_to_end`.  The returned pair mirrors `&mut self`:
the (possibly mutated) codec comes back on every path. -/
def MinecraftCodec.nextPacket {α : Type _} (decode : Bytes → Except DecodeError (α × Bytes))
    (inflate : Bytes → Except DecodeError Bytes) (c : MinecraftCodec) :
    Except DecodeError (Option α) × MinecraftCodec :=
  match readVarI32 c.receivedBuf with
  | .error _ => (.ok none, c)
  | .ok (length, afterLength) =>
    let lengthFieldLength := c.receivedBuf.length - afterLength.length
    if c.receivedBuf.length - lengthFieldLength ≥ usizeOfI32 length then
      let payload := (c.receivedBuf.drop lengthFieldLength).take (usizeOfI32 length)
      let bodyRes : Except DecodeError (Bytes × Bytes) :=
        if c.compression.isSome then
          match readVarI32 payload with
          | .error e => .error e
          | .ok (dataLength, afterData) =>
            if dataLength ≠ 0 then
              match inflate afterData with
              | .error e => .error e
              | .ok inflated =>
                .ok (c.compressionTarget ++ inflated, c.compressionTarget ++ inflated)
            else
              .ok (afterData, c.compressionTarget)
        else
          .ok (payload, c.compressionTarget)
      match bodyRes with
      | .error e => (.error e, c)
      | .ok (body, newTarget) =>
        match decode body with
        | .error e => (.error e, { c with compressionTarget := newTarget })
        | .ok (packet, _) =>
          let bytesRead := usizeOfI32 length + lengthFieldLength
          (.ok (some packet),
            { c with receivedBuf := c.receivedBuf.drop bytesRead, compressionTarget := [] })
    else
      (.ok none, c)

/-- The compression envelope as the spec (4.C) describes it: below the
threshold `VarInt(len(S) + 1) ++ VarInt(0) ++ S`, at or above it
`VarInt(len(Z) + size_of_varint(len(S))) ++ VarInt(len(S)) ++ Z`.  This
definition follows the words of the spec and exists to be compared with
the source translation `MinecraftCodec.encodeCompressed`. -/
def specCompressionEnvelope (deflate : Bytes → Bytes) (threshold : Nat) (S : Bytes) : Bytes :=
  if S.length ≥ threshold then
    let Z := deflate S
    writeVarI32 (natAsI32 (Z.length + (writeVarI32 (natAsI32 S.length)).length)) ++
      writeVarI32 (natAsI32 S.length) ++ Z
  else
    writeVarI32 (natAsI32 (S.length + 1)) ++ writeVarI32 0 ++ S

end MCProxy

namespace MCProxy

/-- C1: with compression enabled at threshold 10 and a one-byte packet
body `S = [0]` (below the threshold), `MinecraftCodec::encode` appends
`[0, 1, 0, 0]` — a spurious leading `VarInt(0)`, then
`VarInt(len(S))`, then `VarInt(0)`, then `S` — instead of the layout
`VarInt(len(S) + 1) ++ VarInt(0) ++ S = [2, 0, 0]` that the spec
prescribes.  The dead `data_length_bytes` cursor in the source shows
the intent matched the spec; the emitted framing is unparseable (its
length prefix is 0). -/
theorem encode_compressed_layout_bug :
    MinecraftCodec.encode (fun z => z) (fun _ out => out) (.ok [0]) []
        ⟨none, some 10, [], [], []⟩
      = .ok ([0, 1, 0, 0], ⟨none, some 10, [], [], []⟩) ∧
      specCompressionEnvelope (fun z => z) 10 [0] = [2, 0, 0] ∧
      ([0, 1, 0, 0] : Bytes) ≠ [2, 0, 0] := by
  have w0 : writeVarI32 (natAsI32 0) = [0] := by
    simp [writeVarI32, encodeVarLoop, (by decide : toUnsigned 32 (natAsI32 0) = 0)]
  have w1 : writeVarI32 (natAsI32 1) = [1] := by
    simp [writeVarI32, encodeVarLoop, (by decide : toUnsigned 32 (natAsI32 1) = 1)]
  have w2 : writeVarI32 (natAsI32 2) = [2] := by
    simp [writeVarI32, encodeVarLoop, (by decide : toUnsigned 32 (natAsI32 2) = 2)]
  have wz : writeVarI32 0 = [0] := by
    simp [writeVarI32, encodeVarLoop, (by decide : toUnsigned 32 0 = 0)]
  refine ⟨?_, ?_, by decide⟩
  · simp [MinecraftCodec.encode, MinecraftCodec.encodeCompressed, w0, w1]
  · simp [specCompressionEnvelope, w2, wz]

end MCProxy

namespace MCProxy

theorem readVarIntCore_rest_le (maxB w : Nat) :
    ∀ (s : Bytes) (numRead acc v : Nat) (rest : Bytes),
      readVarIntCore maxB w s numRead acc = .ok (v, rest) → rest.length ≤ s.length
  | [], numRead, acc, v, rest, h => by
    simp [readVarIntCore] at h
  | b :: t, numRead, acc, v, rest, h => by
    rw [readVarIntCore] at h
    by_cases h1 : numRead + 1 > maxB
    · simp [h1] at h
    · by_cases h2 : b &&& 128 = 0
      · simp only [h1, if_false, h2, if_true, if_pos rfl] at h
        obtain ⟨-, h4⟩ := Prod.mk.inj (Except.ok.inj h)
        simp [← h4]
      · simp only [h1, h2, if_false] at h
        have := readVarIntCore_rest_le maxB w t (numRead + 1) _ v rest h
        simp only [List.length_cons]
        omega

theorem readVarI32_rest_le (s : Bytes) (L : Int) (rest : Bytes)
    (h : readVarI32 s = .ok (L, rest)) : rest.length ≤ s.length := by
  rw [readVarI32] at h
  cases hc : readVarIntCore 5 32 s 0 0 with
  | error e => rw [hc] at h; simp [Except.map] at h
  | ok p =>
    rw [hc] at h
    simp only [Except.map] at h
    obtain ⟨-, h4⟩ := Prod.mk.inj (Except.ok.inj h)
    exact h4 ▸ readVarIntCore_rest_le 5 32 s 0 0 p.1 p.2 hc

/-- C3: a partial frame — the receive buffer holds either an incomplete
length VarInt (any decode failure of the length field) or a complete
length VarInt declaring more payload bytes than are present — makes
`next_packet` return `Ok(None)` with the codec, receive buffer
included, byte-for-byte unchanged; and once the remainder of the frame
arrives through a subsequent `accept`, `next_packet` returns exactly
the packet that the completed buffer decodes to. -/
theorem next_packet_partial_frame {α : Type _}
    (dec : Bytes → Except DecodeError (α × Bytes))
    (inflate : Bytes → Except DecodeError Bytes) (decrypt : Bytes → Bytes → Bytes)
    (comp : Option Nat) (R E : Bytes) (p : α) (st : MinecraftCodec)
    (hpart : ∀ L rest, readVarI32 R = .ok (L, rest) → rest.length < usizeOfI32 L) :
    MinecraftCodec.nextPacket dec inflate ⟨none, comp, R, [], []⟩
        = (.ok none, ⟨none, comp, R, [], []⟩) ∧
      (MinecraftCodec.nextPacket dec inflate ⟨none, comp, R ++ E, [], []⟩
          = (.ok (some p), st) →
        MinecraftCodec.nextPacket dec inflate
            (MinecraftCodec.accept decrypt E ⟨none, comp, R, [], []⟩)
          = (.ok (some p), st)) := by
  constructor
  · cases hr : readVarI32 R with
    | error e => simp [MinecraftCodec.nextPacket, hr]
    | ok pr =>
      have hle : pr.2.length ≤ R.length := readVarI32_rest_le R pr.1 pr.2 (by rw [hr])
      have hlt : pr.2.length < usizeOfI32 pr.1 := hpart pr.1 pr.2 (by rw [hr])
      have heq : R.length - (R.length - pr.2.length) = pr.2.length := by omega
      simp only [MinecraftCodec.nextPacket, hr, heq]
      have hcond : ¬(pr.2.length ≥ usizeOfI32 pr.1) := by omega
      simp [hcond]
  · intro h
    simpa [MinecraftCodec.accept] using h

/-- Witness for `next_packet_partial_frame`: buffer `[3, 10]` declares a
3-byte payload with only one byte present; completing it with
`[11, 12]` produces the packet (here decoded with the `rest` reader). -/
theorem next_packet_partial_frame_witness :
    MinecraftCodec.nextPacket readRest (fun z => .ok z) ⟨none, none, [3, 10], [], []⟩
        = (.ok none, ⟨none, none, [3, 10], [], []⟩) ∧
      MinecraftCodec.nextPacket readRest (fun z => .ok z)
          (MinecraftCodec.accept (fun _ b => b) [11, 12] ⟨none, none, [3, 10], [], []⟩)
        = (.ok (some [10, 11, 12]), ⟨none, none, [], [], []⟩) := by
  have hpart : ∀ L rest, readVarI32 [3, 10] = .ok (L, rest) → rest.length < usizeOfI32 L := by
    intro L rest h
    have h0 : readVarI32 [3, 10] = .ok ((3 : Int), ([10] : Bytes)) := by rfl
    obtain ⟨rfl, rfl⟩ := Prod.mk.inj (Except.ok.inj (h0.symm.trans h))
    decide
  have thm := next_packet_partial_frame readRest (fun z => .ok z) (fun _ b => b)
    none [3, 10] [11, 12] ([10, 11, 12] : Bytes) ⟨none, none, [], [], []⟩ hpart
  exact ⟨thm.1, thm.2 (by decide)⟩

end MCProxy

namespace MCProxy

theorem toUnsigned_lt (w : Nat) (n : Int) : toUnsigned w n < 2 ^ w := by
  simp only [toUnsigned]
  have h1 : 0 ≤ n % 2 ^ w := Int.emod_nonneg n (by positivity)
  have h2 : n % 2 ^ w < 2 ^ w := Int.emod_lt_of_pos n (by positivity)
  have h3 : ((2 : Nat) ^ w : Int) = (2 : Int) ^ w := by push_cast; rfl
  omega

theorem writeVarI32_length_le (n : Int) : (writeVarI32 n).length ≤ 5 := by
  have hu : toUnsigned 32 n < 2 ^ (7 * 5) :=
    lt_of_lt_of_le (toUnsigned_lt 32 n) (by norm_num)
  simpa [writeVarI32] using encodeVarLoop_length 4 (toUnsigned 32 n) hu

/-- C8: with compression enabled (any threshold `t`), `next_packet`
never verifies the declared uncompressed length.  For a fully received
frame whose `data_length` field is a positive `D`, the inflated bytes
are handed to the packet decoder whatever their number — the statement
imposes no relation between `infl.length` and `D` — and no error is
raised for a mismatch; for `D = 0` the remaining payload is used raw,
again with no check against the threshold, so the invariant
`D == 0 ↔ packet below threshold` is not enforced on decode. -/
theorem next_packet_ignores_data_length {α : Type _}
    (dec : Bytes → Except DecodeError (α × Bytes))
    (inflate : Bytes → Except DecodeError Bytes) (t : Nat) (D : Nat)
    (z infl raw rest₁ rest₂ : Bytes) (p₁ p₂ : α)
    (hD : 0 < D) (hD31 : D < 2 ^ 31)
    (hplen : (writeVarI32 (natAsI32 D) ++ z).length < 2 ^ 31)
    (hrlen : (writeVarI32 (natAsI32 0) ++ raw).length < 2 ^ 31)
    (hinfl : inflate z = .ok infl)
    (hdec : dec infl = .ok (p₁, rest₁))
    (hraw : dec raw = .ok (p₂, rest₂)) :
    (MinecraftCodec.nextPacket dec inflate
        ⟨none, some t,
          writeVarI32 (natAsI32 (writeVarI32 (natAsI32 D) ++ z).length) ++
            (writeVarI32 (natAsI32 D) ++ z), [], []⟩
      = (.ok (some p₁), ⟨none, some t, [], [], []⟩)) ∧
    (MinecraftCodec.nextPacket dec inflate
        ⟨none, some t,
          writeVarI32 (natAsI32 (writeVarI32 (natAsI32 0) ++ raw).length) ++
            (writeVarI32 (natAsI32 0) ++ raw), [], []⟩
      = (.ok (some p₂), ⟨none, some t, [], [], []⟩)) := by
  constructor
  · set payload := writeVarI32 (natAsI32 D) ++ z with hpayload
    set pfx := writeVarI32 (natAsI32 payload.length) with hpfx
    have hread : readVarI32 (pfx ++ payload) = .ok ((payload.length : Int), payload) :=
      readVarI32_nat payload.length hplen payload
    have hinner : readVarI32 payload = .ok ((D : Int), z) := readVarI32_nat D hD31 z
    have hlfl : (pfx ++ payload).length - payload.length = pfx.length := by
      simp [List.length_append]
    have husize : usizeOfI32 ((payload.length : Int)) = payload.length :=
      usizeOfI32_ofNat payload.length hplen
    have hslice : ((pfx ++ payload).drop pfx.length).take payload.length = payload := by
      rw [List.drop_left, List.take_length]
    have hdrop : (pfx ++ payload).drop (payload.length + pfx.length) = [] := by
      apply List.drop_eq_nil_of_le
      simp [List.length_append]
      omega
    have hDne : ((D : Int) ≠ 0) := by
      simp
      omega
    simp only [MinecraftCodec.nextPacket, hread, hlfl, husize, hslice, hdrop,
      List.length_append, Nat.add_sub_cancel, ge_iff_le, le_refl, if_true, if_pos rfl,
      Option.isSome_some, hinner, hDne, if_false, ite_true, ite_false, hinfl,
      List.nil_append, hdec, ne_eq, not_true_eq_false, not_false_eq_true]
    rw [if_pos (by omega)]
  · set payload := writeVarI32 (natAsI32 0) ++ raw with hpayload
    set pfx := writeVarI32 (natAsI32 payload.length) with hpfx
    have hread : readVarI32 (pfx ++ payload) = .ok ((payload.length : Int), payload) :=
      readVarI32_nat payload.length hrlen payload
    have hinner : readVarI32 payload = .ok ((0 : Int), raw) := by
      have := readVarI32_nat 0 (by norm_num) raw
      simpa using this
    have hlfl : (pfx ++ payload).length - payload.length = pfx.length := by
      simp [List.length_append]
    have husize : usizeOfI32 ((payload.length : Int)) = payload.length :=
      usizeOfI32_ofNat payload.length hrlen
    have hslice : ((pfx ++ payload).drop pfx.length).take payload.length = payload := by
      rw [List.drop_left, List.take_length]
    have hdrop : (pfx ++ payload).drop (payload.length + pfx.length) = [] := by
      apply List.drop_eq_nil_of_le
      simp [List.length_append]
      omega
    simp only [MinecraftCodec.nextPacket, hread, hlfl, husize, hslice, hdrop,
      List.length_append, Nat.add_sub_cancel, ge_iff_le, le_refl, if_true, if_pos rfl,
      Option.isSome_some, hinner, if_false, ite_true, ite_false, hraw,
      ne_eq, not_true_eq_false, not_false_eq_true]
    rw [if_pos (by omega)]

/-- Witness for `next_packet_ignores_data_length`: the frame declares
`D = 100` uncompressed bytes but the (stub) inflater yields a single
byte `[7]`, which decodes fine; the raw branch uses `D = 0`. -/
theorem next_packet_ignores_data_length_witness :
    (0 < 100 ∧ (fun (_ : Bytes) => (.ok [7] : Except DecodeError Bytes)) [] = .ok [7] ∧
        readU8 [7] = .ok (7, []) ∧ ([7] : Bytes).length ≠ 100) ∧
      MinecraftCodec.nextPacket readU8 (fun _ => .ok [7])
          ⟨none, some 3,
            writeVarI32 (natAsI32 (writeVarI32 (natAsI32 100) ++ []).length) ++
              (writeVarI32 (natAsI32 100) ++ []), [], []⟩
        = (.ok (some 7), ⟨none, some 3, [], [], []⟩) ∧
      MinecraftCodec.nextPacket readU8 (fun _ => .ok [7])
          ⟨none, some 3,
            writeVarI32 (natAsI32 (writeVarI32 (natAsI32 0) ++ [9]).length) ++
              (writeVarI32 (natAsI32 0) ++ [9]), [], []⟩
        = (.ok (some 9), ⟨none, some 3, [], [], []⟩) := by
  have thm := next_packet_ignores_data_length readU8 (fun _ => .ok [7]) 3 100
    [] [7] [9] [] [] 7 9 (by norm_num) (by norm_num)
    (by have := writeVarI32_length_le (natAsI32 100); simp; omega)
    (by have := writeVarI32_length_le (natAsI32 0); simp; omega) rfl rfl rfl
  exact ⟨⟨by norm_num, rfl, rfl, by decide⟩, thm.1, thm.2⟩

end MCProxy

namespace MCProxy

theorem readVarI32_natCast (n : Nat) (h : n < 2 ^ 31) (rest : Bytes) :
    readVarI32 (writeVarI32 (n : Int) ++ rest) = .ok ((n : Int), rest) := by
  apply readVarI32_writeVarI32
  · omega
  · exact_mod_cast h

theorem utf8Valid_ascii : ∀ (l : Bytes), (∀ b ∈ l, b < 128) → utf8Valid l = true
  | [], _ => rfl
  | b :: rest, h => by
    have hb : b < 128 := h b (List.mem_cons_self b rest)
    show utf8ValidAux 0 0 0 (b :: rest) = true
    rw [utf8ValidAux, if_pos hb]
    exact utf8Valid_ascii rest (fun x hx => h x (List.mem_cons_of_mem b hx))

/-- One lowercase hexadecimal digit character code. -/
def hexDigit (v : Nat) : Nat :=
  if v < 10 then 48 + v else 87 + v

/-- The two hex digit character codes of one byte. -/
def byteHex (b : Nat) : Bytes :=
  [hexDigit (b / 16), hexDigit (b % 16)]

/-- Modelled from the spec (external `uuid` crate): the hyphenated
lowercase textual form 8-4-4-4-12 of a 16-byte UUID.  45 is the hyphen
character code. -/
def uuidHyphenatedText (u : Bytes) : Bytes :=
  ((u.take 4).map byteHex).flatten ++ [45] ++
    (((u.drop 4).take 2).map byteHex).flatten ++ [45] ++
    (((u.drop 6).take 2).map byteHex).flatten ++ [45] ++
    (((u.drop 8).take 2).map byteHex).flatten ++ [45] ++
    ((u.drop 10).map byteHex).flatten

/-- Value of one hex digit character, upper or lower case. -/
def hexVal (c : Nat) : Option Nat :=
  if 48 ≤ c ∧ c ≤ 57 then some (c - 48)
  else if 97 ≤ c ∧ c ≤ 102 then some (c - 87)
  else if 65 ≤ c ∧ c ≤ 70 then some (c - 55)
  else none

/-- Bytes from consecutive pairs of hex digit characters. -/
def hexPairs : Bytes → Option Bytes
  | [] => some []
  | hi :: lo :: rest => do
    let h ← hexVal hi
    let l ← hexVal lo
    let r ← hexPairs rest
    some ((h * 16 + l) :: r)
  | [_] => none

/-- Modelled from the spec: `Uuid::parse_str` of the external `uuid`
crate, restricted to the hyphenated form the proxy produces and
consumes; malformed input is a `UuidParseError`. -/
def uuidParseStr (s : Bytes) : Except DecodeError Bytes :=
  if s.length = 36 ∧ s.get? 8 = some 45 ∧ s.get? 13 = some 45 ∧
      s.get? 18 = some 45 ∧ s.get? 23 = some 45 then
    match hexPairs (s.take 8 ++ ((s.drop 9).take 4) ++ ((s.drop 14).take 4) ++
        ((s.drop 19).take 4) ++ s.drop 24) with
    | some bytes => .ok bytes
    | none => .error .uuidParseError
  else .error .uuidParseError

/-- Source model: `uuid_hyp_str::decode` in `decoder.rs`: a string of
maximum length 36, then parsed as a UUID. -/
def uuidHypStrDecode (s : Bytes) : Except DecodeError (Bytes × Bytes) := do
  let (str, rest) ← readString 36 s
  let u ← uuidParseStr str
  .ok (u, rest)

/-- Modelled from the spec: the encode direction of `uuid_hyp_str` —
the hyphenated text written as a string with maximum length 36. -/
def uuidHypStrEncode (u : Bytes) : Except EncodeError Bytes :=
  writeString 36 (uuidHyphenatedText u)

theorem hexVal_hexDigit (v : Nat) (h : v < 16) : hexVal (hexDigit v) = some v := by
  by_cases h10 : v < 10
  · rw [hexDigit, if_pos h10, hexVal, if_pos (by omega)]
    congr 1
    omega
  · rw [hexDigit, if_neg h10, hexVal, if_neg (by omega), if_pos (by omega)]
    congr 1
    omega

theorem hexPairs_join : ∀ (l : Bytes), (∀ b ∈ l, b < 256) →
    hexPairs ((l.map byteHex).flatten) = some l
  | [], _ => rfl
  | b :: rest, h => by
    have hb : b < 256 := h b (by simp)
    have ih := hexPairs_join rest (fun x hx => h x (by simp [hx]))
    simp only [List.map_cons, List.flatten_cons, byteHex, List.cons_append, List.nil_append]
    rw [hexPairs]
    rw [hexVal_hexDigit (b / 16) (by omega), hexVal_hexDigit (b % 16) (by omega), ih]
    show some ((b / 16 * 16 + b % 16) :: rest) = some (b :: rest)
    congr 2
    omega

end MCProxy


namespace MCProxy

theorem exists_sixteen (u : Bytes) (hlen : u.length = 16) :
    ∃ a0 a1 a2 a3 a4 a5 a6 a7 a8 a9 a10 a11 a12 a13 a14 a15,
      u = [a0, a1, a2, a3, a4, a5, a6, a7, a8, a9, a10, a11, a12, a13, a14, a15] := by
  rcases u with _ | ⟨a0, u⟩
  · simp at hlen
  rcases u with _ | ⟨a1, u⟩
  · simp at hlen
  rcases u with _ | ⟨a2, u⟩
  · simp at hlen
  rcases u with _ | ⟨a3, u⟩
  · simp at hlen
  rcases u with _ | ⟨a4, u⟩
  · simp at hlen
  rcases u with _ | ⟨a5, u⟩
  · simp at hlen
  rcases u with _ | ⟨a6, u⟩
  · simp at hlen
  rcases u with _ | ⟨a7, u⟩
  · simp at hlen
  rcases u with _ | ⟨a8, u⟩
  · simp at hlen
  rcases u with _ | ⟨a9, u⟩
  · simp at hlen
  rcases u with _ | ⟨a10, u⟩
  · simp at hlen
  rcases u with _ | ⟨a11, u⟩
  · simp at hlen
  rcases u with _ | ⟨a12, u⟩
  · simp at hlen
  rcases u with _ | ⟨a13, u⟩
  · simp at hlen
  rcases u with _ | ⟨a14, u⟩
  · simp at hlen
  rcases u with _ | ⟨a15, u⟩
  · simp at hlen
  rcases u with _ | ⟨a16, u⟩
  · exact ⟨a0, a1, a2, a3, a4, a5, a6, a7, a8, a9, a10, a11, a12, a13, a14, a15, rfl⟩
  · simp at hlen

theorem uuidParse_uuidText (u : Bytes) (hlen : u.length = 16)
    (hb : ∀ b ∈ u, b < 256) :
    uuidParseStr (uuidHyphenatedText u) = .ok u := by
  obtain ⟨a0, a1, a2, a3, a4, a5, a6, a7, a8, a9, a10, a11, a12, a13, a14, a15, rfl⟩ := exists_sixteen u hlen
  have hj := hexPairs_join [a0, a1, a2, a3, a4, a5, a6, a7, a8, a9, a10, a11, a12, a13, a14, a15] hb
  simp only [List.map_cons, List.map_nil, List.flatten_cons, List.flatten_nil, byteHex,
    List.cons_append, List.nil_append, List.append_nil] at hj
  have htext : uuidHyphenatedText [a0, a1, a2, a3, a4, a5, a6, a7, a8, a9, a10, a11, a12, a13, a14, a15] =
      [hexDigit (a0 / 16), hexDigit (a0 % 16), hexDigit (a1 / 16), hexDigit (a1 % 16),
      hexDigit (a2 / 16), hexDigit (a2 % 16), hexDigit (a3 / 16), hexDigit (a3 % 16),
      45, hexDigit (a4 / 16), hexDigit (a4 % 16), hexDigit (a5 / 16),
      hexDigit (a5 % 16), 45, hexDigit (a6 / 16), hexDigit (a6 % 16),
      hexDigit (a7 / 16), hexDigit (a7 % 16), 45, hexDigit (a8 / 16),
      hexDigit (a8 % 16), hexDigit (a9 / 16), hexDigit (a9 % 16), 45,
      hexDigit (a10 / 16), hexDigit (a10 % 16), hexDigit (a11 / 16), hexDigit (a11 % 16),
      hexDigit (a12 / 16), hexDigit (a12 % 16), hexDigit (a13 / 16), hexDigit (a13 % 16),
      hexDigit (a14 / 16), hexDigit (a14 % 16), hexDigit (a15 / 16), hexDigit (a15 % 16)] := rfl
  rw [htext, uuidParseStr]
  split
  case isFalse hcond => exact absurd ⟨rfl, rfl, rfl, rfl, rfl⟩ hcond
  rw [show (List.take 8 [hexDigit (a0 / 16), hexDigit (a0 % 16), hexDigit (a1 / 16), hexDigit (a1 % 16),
      hexDigit (a2 / 16), hexDigit (a2 % 16), hexDigit (a3 / 16), hexDigit (a3 % 16),
      45, hexDigit (a4 / 16), hexDigit (a4 % 16), hexDigit (a5 / 16),
      hexDigit (a5 % 16), 45, hexDigit (a6 / 16), hexDigit (a6 % 16),
      hexDigit (a7 / 16), hexDigit (a7 % 16), 45, hexDigit (a8 / 16),
      hexDigit (a8 % 16), hexDigit (a9 / 16), hexDigit (a9 % 16), 45,
      hexDigit (a10 / 16), hexDigit (a10 % 16), hexDigit (a11 / 16), hexDigit (a11 % 16),
      hexDigit (a12 / 16), hexDigit (a12 % 16), hexDigit (a13 / 16), hexDigit (a13 % 16),
      hexDigit (a14 / 16), hexDigit (a14 % 16), hexDigit (a15 / 16), hexDigit (a15 % 16)] ++
      ((List.drop 9 [hexDigit (a0 / 16), hexDigit (a0 % 16), hexDigit (a1 / 16), hexDigit (a1 % 16),
      hexDigit (a2 / 16), hexDigit (a2 % 16), hexDigit (a3 / 16), hexDigit (a3 % 16),
      45, hexDigit (a4 / 16), hexDigit (a4 % 16), hexDigit (a5 / 16),
      hexDigit (a5 % 16), 45, hexDigit (a6 / 16), hexDigit (a6 % 16),
      hexDigit (a7 / 16), hexDigit (a7 % 16), 45, hexDigit (a8 / 16),
      hexDigit (a8 % 16), hexDigit (a9 / 16), hexDigit (a9 % 16), 45,
      hexDigit (a10 / 16), hexDigit (a10 % 16), hexDigit (a11 / 16), hexDigit (a11 % 16),
      hexDigit (a12 / 16), hexDigit (a12 % 16), hexDigit (a13 / 16), hexDigit (a13 % 16),
      hexDigit (a14 / 16), hexDigit (a14 % 16), hexDigit (a15 / 16), hexDigit (a15 % 16)]).take 4) ++
      ((List.drop 14 [hexDigit (a0 / 16), hexDigit (a0 % 16), hexDigit (a1 / 16), hexDigit (a1 % 16),
      hexDigit (a2 / 16), hexDigit (a2 % 16), hexDigit (a3 / 16), hexDigit (a3 % 16),
      45, hexDigit (a4 / 16), hexDigit (a4 % 16), hexDigit (a5 / 16),
      hexDigit (a5 % 16), 45, hexDigit (a6 / 16), hexDigit (a6 % 16),
      hexDigit (a7 / 16), hexDigit (a7 % 16), 45, hexDigit (a8 / 16),
      hexDigit (a8 % 16), hexDigit (a9 / 16), hexDigit (a9 % 16), 45,
      hexDigit (a10 / 16), hexDigit (a10 % 16), hexDigit (a11 / 16), hexDigit (a11 % 16),
      hexDigit (a12 / 16), hexDigit (a12 % 16), hexDigit (a13 / 16), hexDigit (a13 % 16),
      hexDigit (a14 / 16), hexDigit (a14 % 16), hexDigit (a15 / 16), hexDigit (a15 % 16)]).take 4) ++
      ((List.drop 19 [hexDigit (a0 / 16), hexDigit (a0 % 16), hexDigit (a1 / 16), hexDigit (a1 % 16),
      hexDigit (a2 / 16), hexDigit (a2 % 16), hexDigit (a3 / 16), hexDigit (a3 % 16),
      45, hexDigit (a4 / 16), hexDigit (a4 % 16), hexDigit (a5 / 16),
      hexDigit (a5 % 16), 45, hexDigit (a6 / 16), hexDigit (a6 % 16),
      hexDigit (a7 / 16), hexDigit (a7 % 16), 45, hexDigit (a8 / 16),
      hexDigit (a8 % 16), hexDigit (a9 / 16), hexDigit (a9 % 16), 45,
      hexDigit (a10 / 16), hexDigit (a10 % 16), hexDigit (a11 / 16), hexDigit (a11 % 16),
      hexDigit (a12 / 16), hexDigit (a12 % 16), hexDigit (a13 / 16), hexDigit (a13 % 16),
      hexDigit (a14 / 16), hexDigit (a14 % 16), hexDigit (a15 / 16), hexDigit (a15 % 16)]).take 4) ++
      List.drop 24 [hexDigit (a0 / 16), hexDigit (a0 % 16), hexDigit (a1 / 16), hexDigit (a1 % 16),
      hexDigit (a2 / 16), hexDigit (a2 % 16), hexDigit (a3 / 16), hexDigit (a3 % 16),
      45, hexDigit (a4 / 16), hexDigit (a4 % 16), hexDigit (a5 / 16),
      hexDigit (a5 % 16), 45, hexDigit (a6 / 16), hexDigit (a6 % 16),
      hexDigit (a7 / 16), hexDigit (a7 % 16), 45, hexDigit (a8 / 16),
      hexDigit (a8 % 16), hexDigit (a9 / 16), hexDigit (a9 % 16), 45,
      hexDigit (a10 / 16), hexDigit (a10 % 16), hexDigit (a11 / 16), hexDigit (a11 % 16),
      hexDigit (a12 / 16), hexDigit (a12 % 16), hexDigit (a13 / 16), hexDigit (a13 % 16),
      hexDigit (a14 / 16), hexDigit (a14 % 16), hexDigit (a15 / 16), hexDigit (a15 % 16)]) =
      [hexDigit (a0 / 16), hexDigit (a0 % 16), hexDigit (a1 / 16), hexDigit (a1 % 16), hexDigit (a2 / 16), hexDigit (a2 % 16), hexDigit (a3 / 16), hexDigit (a3 % 16), hexDigit (a4 / 16), hexDigit (a4 % 16), hexDigit (a5 / 16), hexDigit (a5 % 16), hexDigit (a6 / 16), hexDigit (a6 % 16), hexDigit (a7 / 16), hexDigit (a7 % 16), hexDigit (a8 / 16), hexDigit (a8 % 16), hexDigit (a9 / 16), hexDigit (a9 % 16), hexDigit (a10 / 16), hexDigit (a10 % 16), hexDigit (a11 / 16), hexDigit (a11 % 16), hexDigit (a12 / 16), hexDigit (a12 % 16), hexDigit (a13 / 16), hexDigit (a13 % 16), hexDigit (a14 / 16), hexDigit (a14 % 16), hexDigit (a15 / 16), hexDigit (a15 % 16)] from rfl]
  rw [hj]

end MCProxy

namespace MCProxy

theorem hexDigit_lt (v : Nat) (h : v < 41) : hexDigit v < 128 := by
  rw [hexDigit]
  split <;> omega

theorem uuidHyphenatedText_length (u : Bytes) (hlen : u.length = 16) :
    (uuidHyphenatedText u).length = 36 := by
  obtain ⟨a0, a1, a2, a3, a4, a5, a6, a7, a8, a9, a10, a11, a12, a13, a14, a15, rfl⟩ := exists_sixteen u hlen
  rfl

theorem byteHex_flatten_lt (l : Bytes) (hb : ∀ b ∈ l, b < 256) :
    ∀ c ∈ (l.map byteHex).flatten, c < 128 := by
  intro c hc
  simp only [List.mem_flatten, List.mem_map] at hc
  obtain ⟨bl, ⟨b, hbmem, rfl⟩, hcbl⟩ := hc
  have hblt : b < 256 := hb b hbmem
  simp only [byteHex, List.mem_cons, List.not_mem_nil, or_false] at hcbl
  rcases hcbl with rfl | rfl <;> exact hexDigit_lt _ (by omega)

theorem uuidHyphenatedText_ascii (u : Bytes)
    (hb : ∀ b ∈ u, b < 256) : ∀ c ∈ uuidHyphenatedText u, c < 128 := by
  intro c hc
  simp only [uuidHyphenatedText, List.mem_append, List.mem_singleton,
    List.singleton_append, List.mem_cons, List.not_mem_nil, or_false] at hc
  rcases hc with (((((((hc | rfl) | hc) | rfl) | hc) | rfl) | hc) | rfl) | hc
  · exact byteHex_flatten_lt _ (fun b hm => hb b (List.take_subset _ _ hm)) c hc
  · omega
  · exact byteHex_flatten_lt _
      (fun b hm => hb b (List.drop_subset _ _ (List.take_subset _ _ hm))) c hc
  · omega
  · exact byteHex_flatten_lt _
      (fun b hm => hb b (List.drop_subset _ _ (List.take_subset _ _ hm))) c hc
  · omega
  · exact byteHex_flatten_lt _
      (fun b hm => hb b (List.drop_subset _ _ (List.take_subset _ _ hm))) c hc
  · omega
  · exact byteHex_flatten_lt _ (fun b hm => hb b (List.drop_subset _ _ hm)) c hc

theorem uuidHypStr_roundtrip (u rest : Bytes) (hlen : u.length = 16)
    (hb : ∀ b ∈ u, b < 256) :
    uuidHypStrEncode u = .ok (writeVarI32 (natAsI32 36) ++ uuidHyphenatedText u) ∧
      uuidHypStrDecode ((writeVarI32 (natAsI32 36) ++ uuidHyphenatedText u) ++ rest)
        = .ok (u, rest) := by
  have htl : (uuidHyphenatedText u).length = 36 := uuidHyphenatedText_length u hlen
  have hutf : utf8Valid (uuidHyphenatedText u) = true :=
    utf8Valid_ascii _ (uuidHyphenatedText_ascii u hb)
  have hrt := readString_writeString 36 (uuidHyphenatedText u) rest (by omega) (by omega) hutf
  constructor
  · rw [uuidHypStrEncode, hrt.1, htl]
  · rw [uuidHypStrDecode]
    rw [htl] at hrt
    rw [hrt.2]
    simp only [except_bind_ok]
    rw [uuidParse_uuidText u hlen hb]
    rfl

end MCProxy

namespace MCProxy

/-- Source model: the blanket `impl<T: EnumDecoder> Decoder for T` in
`decoder.rs`: read a VarInt type id, convert with `u8::try_from`
(failing `VarIntTooLong{max_bytes: 1}` out of range), then dispatch. -/
def enumDecode {α : Type _} (body : Nat → Bytes → Except DecodeError (α × Bytes))
    (s : Bytes) : Except DecodeError (α × Bytes) := do
  let (tid, s) ← readVarI32 s
  if 0 ≤ tid ∧ tid ≤ 255 then body tid.toNat s
  else .error (.varIntTooLong 1)

/-- Modelled from the spec: the blanket encoder for `EnumEncoder`
types in the missing `encoder.rs` — `VarInt(get_type_id())` then the
variant body (spec §9, polymorphic packet dispatch). -/
def enumEncode (typeId : Nat) (body : Except EncodeError Bytes) : Except EncodeError Bytes := do
  let b ← body
  .ok (writeVarI32 (typeId : Int) ++ b)

theorem enumEncode_ok (typeId : Nat) (b : Bytes) :
    enumEncode typeId (.ok b) = .ok (writeVarI32 (typeId : Int) ++ b) := rfl

theorem enumDecode_encode {α : Type _} (body : Nat → Bytes → Except DecodeError (α × Bytes))
    (tid : Nat) (htid : tid < 256) (bodyBytes : Bytes)
    (res : Except DecodeError (α × Bytes)) (h : body tid bodyBytes = res) :
    enumDecode body (writeVarI32 (tid : Int) ++ bodyBytes) = res := by
  rw [enumDecode, readVarI32_natCast tid (by omega) bodyBytes]
  simp only [except_bind_ok]
  rw [if_pos (by omega)]
  simpa using h

/-- Right-associated restatement of the string round-trip, matching the
normal form `simp [List.append_assoc]` produces. -/
theorem rt_string (maxLength : Nat) (s rest : Bytes) (hlen : s.length ≤ maxLength)
    (hmax : maxLength ≤ 65535) (hutf : utf8Valid s = true) :
    readString maxLength (writeVarI32 (natAsI32 s.length) ++ (s ++ rest)) = .ok (s, rest) := by
  have := (readString_writeString maxLength s rest hlen hmax hutf).2
  rwa [List.append_assoc] at this

theorem rt_byteArray (b rest : Bytes) (h : b.length < 2 ^ 31) :
    readByteArray (writeVarI32 (natAsI32 b.length) ++ (b ++ rest)) = .ok (b, rest) := by
  have := readByteArray_writeByteArray b rest h
  rwa [writeByteArray, List.append_assoc] at this

theorem rt_uuidHyp (u rest : Bytes) (hlen : u.length = 16) (hb : ∀ b ∈ u, b < 256) :
    uuidHypStrDecode (writeVarI32 (natAsI32 36) ++ (uuidHyphenatedText u ++ rest))
      = .ok (u, rest) := by
  have := (uuidHypStr_roundtrip u rest hlen hb).2
  rwa [List.append_assoc] at this

/-- Source model: `packet/handshake.rs` `NextState` (explicit
discriminants `Status = 1`, `Login = 2`); its VarInt codec is modelled
from the spec (derive crate not under `src/`). -/
inductive NextState where
  | status
  | login
  deriving DecidableEq, Repr

def NextState.ordinal : NextState → Int
  | .status => 1
  | .login => 2

def NextState.decode (s : Bytes) : Except DecodeError (NextState × Bytes) := do
  let (v, s) ← readVarI32 s
  if v = 1 then .ok (.status, s)
  else if v = 2 then .ok (.login, s)
  else .error (.unknownEnumType (usizeOfI32 v))

theorem rt_nextState (ns : NextState) (rest : Bytes) :
    NextState.decode (writeVarI32 ns.ordinal ++ rest) = .ok (ns, rest) := by
  cases ns <;>
    · rw [NextState.decode, NextState.ordinal,
        readVarI32_writeVarI32 _ (by norm_num) (by norm_num)]
      simp

/-- Source model: `packet/handshake.rs` `Handshake`; strings are UTF-8
byte lists, the port a `u16`.  Field codec order is modelled from the
spec (derive crate not under `src/`). -/
structure Handshake where
  protocol_version : Int
  server_addr : Bytes
  server_port : Nat
  next_state : NextState
  deriving DecidableEq, Repr

def Handshake.wf (p : Handshake) : Prop :=
  -(2 ^ 31) ≤ p.protocol_version ∧ p.protocol_version < 2 ^ 31 ∧
    p.server_addr.length ≤ 255 ∧ utf8Valid p.server_addr = true ∧ p.server_port < 2 ^ 16

def Handshake.encode (p : Handshake) : Except EncodeError Bytes := do
  let addr ← writeString 255 p.server_addr
  .ok (writeVarI32 p.protocol_version ++ (addr ++ (writeBE 2 p.server_port ++
    writeVarI32 p.next_state.ordinal)))

def Handshake.decode (s : Bytes) : Except DecodeError (Handshake × Bytes) := do
  let (pv, s) ← readVarI32 s
  let (addr, s) ← readString 255 s
  let (port, s) ← readBE 2 s
  let (ns, s) ← NextState.decode s
  .ok (⟨pv, addr, port, ns⟩, s)

theorem Handshake_rt (p : Handshake) (h : p.wf) (rest : Bytes) :
    ∃ b, Handshake.encode p = .ok b ∧ Handshake.decode (b ++ rest) = .ok (p, rest) := by
  obtain ⟨h1, h2, h3, h4, h5⟩ := h
  have hsw := (readString_writeString 255 p.server_addr [] h3 (by norm_num) h4).1
  refine ⟨_, by rw [Handshake.encode, hsw]; rfl, ?_⟩
  rw [Handshake.decode]
  simp only [List.append_assoc]
  rw [readVarI32_writeVarI32 _ h1 h2]
  simp only [except_bind_ok]
  rw [rt_string 255 p.server_addr _ h3 (by norm_num) h4]
  simp only [except_bind_ok]
  rw [readBE_writeBE 2 p.server_port (by norm_num at h5 ⊢; omega)]
  simp only [except_bind_ok]
  rw [rt_nextState]
  rfl

/-- Source model: `packet/handshake.rs` `HandshakeServerBoundPacket`. -/
inductive HandshakeServerBoundPacket where
  | handshake (p : Handshake)
  deriving DecidableEq, Repr

def HandshakeServerBoundPacket.typeId : HandshakeServerBoundPacket → Nat
  | .handshake _ => 0x00

def HandshakeServerBoundPacket.encodeBody : HandshakeServerBoundPacket → Except EncodeError Bytes
  | .handshake p => p.encode

def HandshakeServerBoundPacket.decodeBody (typeId : Nat) (s : Bytes) :
    Except DecodeError (HandshakeServerBoundPacket × Bytes) :=
  match typeId with
  | 0x00 => (Handshake.decode s).map fun q => (.handshake q.1, q.2)
  | _ => .error (.unknownPacketType typeId)

def HandshakeServerBoundPacket.encode (p : HandshakeServerBoundPacket) : Except EncodeError Bytes :=
  enumEncode p.typeId p.encodeBody

def HandshakeServerBoundPacket.decode (s : Bytes) :
    Except DecodeError (HandshakeServerBoundPacket × Bytes) :=
  enumDecode HandshakeServerBoundPacket.decodeBody s

def HandshakeServerBoundPacket.wf : HandshakeServerBoundPacket → Prop
  | .handshake p => p.wf

theorem HandshakeServerBoundPacket_rt (p : HandshakeServerBoundPacket) (h : p.wf) :
    ∃ b, HandshakeServerBoundPacket.encode p = .ok b ∧
      HandshakeServerBoundPacket.decode b = .ok (p, []) := by
  cases p with
  | handshake q =>
    obtain ⟨b, hb1, hb2⟩ := Handshake_rt q h []
    refine ⟨writeVarI32 ((0 : Nat) : Int) ++ b, ?_, ?_⟩
    · rw [HandshakeServerBoundPacket.encode, HandshakeServerBoundPacket.typeId,
        HandshakeServerBoundPacket.encodeBody, hb1, enumEncode_ok]
    · rw [HandshakeServerBoundPacket.decode]
      apply enumDecode_encode _ 0 (by norm_num)
      rw [HandshakeServerBoundPacket.decodeBody]
      rw [List.append_nil] at hb2
      rw [hb2]
      rfl

end MCProxy

namespace MCProxy

/-- Source model: `packet/status.rs` `PingRequest` (`time: u64`). -/
structure PingRequest where
  time : Nat
  deriving DecidableEq, Repr

def PingRequest.wf (p : PingRequest) : Prop := p.time < 2 ^ 64

def PingRequest.encode (p : PingRequest) : Except EncodeError Bytes :=
  .ok (writeBE 8 p.time)

def PingRequest.decode (s : Bytes) : Except DecodeError (PingRequest × Bytes) := do
  let (t, s) ← readBE 8 s
  .ok (⟨t⟩, s)

theorem PingRequest_rt (p : PingRequest) (h : p.wf) (rest : Bytes) :
    ∃ b, PingRequest.encode p = .ok b ∧ PingRequest.decode (b ++ rest) = .ok (p, rest) := by
  refine ⟨_, rfl, ?_⟩
  rw [PingRequest.decode, readBE_writeBE 8 p.time
    (by have h2 : p.time < 2 ^ 64 := h; norm_num at h2 ⊢; omega)]
  rfl

/-- Source model: `packet/status.rs` `PingResponse` (`time: u64`). -/
structure PingResponse where
  time : Nat
  deriving DecidableEq, Repr

def PingResponse.wf (p : PingResponse) : Prop := p.time < 2 ^ 64

def PingResponse.encode (p : PingResponse) : Except EncodeError Bytes :=
  .ok (writeBE 8 p.time)

def PingResponse.decode (s : Bytes) : Except DecodeError (PingResponse × Bytes) := do
  let (t, s) ← readBE 8 s
  .ok (⟨t⟩, s)

theorem PingResponse_rt (p : PingResponse) (h : p.wf) (rest : Bytes) :
    ∃ b, PingResponse.encode p = .ok b ∧ PingResponse.decode (b ++ rest) = .ok (p, rest) := by
  refine ⟨_, rfl, ?_⟩
  rw [PingResponse.decode, readBE_writeBE 8 p.time
    (by have h2 : p.time < 2 ^ 64 := h; norm_num at h2 ⊢; omega)]
  rfl

/-- Source model: `packet/status.rs` `StatusResponse`.  The
`ServerStatus` value lives in the `data/` module (not under `src/`) and
is serialized as a JSON string on the wire; modelled from the spec by
its JSON text carried as a length-prefixed string (default max
32,768). -/
structure StatusResponse where
  server_status : Bytes
  deriving DecidableEq, Repr

def StatusResponse.wf (p : StatusResponse) : Prop :=
  p.server_status.length ≤ 32768 ∧ utf8Valid p.server_status = true

def StatusResponse.encode (p : StatusResponse) : Except EncodeError Bytes :=
  writeString 32768 p.server_status

def StatusResponse.decode (s : Bytes) : Except DecodeError (StatusResponse × Bytes) := do
  let (st, s) ← readString 32768 s
  .ok (⟨st⟩, s)

theorem StatusResponse_rt (p : StatusResponse) (h : p.wf) (rest : Bytes) :
    ∃ b, StatusResponse.encode p = .ok b ∧ StatusResponse.decode (b ++ rest) = .ok (p, rest) := by
  obtain ⟨h1, h2⟩ := h
  have hrt := readString_writeString 32768 p.server_status rest h1 (by norm_num) h2
  refine ⟨_, hrt.1, ?_⟩
  rw [StatusResponse.decode, hrt.2]
  rfl

/-- Source model: `packet/status.rs` `StatusServerBoundPacket`. -/
inductive StatusServerBoundPacket where
  | statusRequest
  | pingRequest (p : PingRequest)
  deriving DecidableEq, Repr

def StatusServerBoundPacket.typeId : StatusServerBoundPacket → Nat
  | .statusRequest => 0x00
  | .pingRequest _ => 0x01

def StatusServerBoundPacket.encodeBody : StatusServerBoundPacket → Except EncodeError Bytes
  | .statusRequest => .ok []
  | .pingRequest p => p.encode

def StatusServerBoundPacket.decodeBody (typeId : Nat) (s : Bytes) :
    Except DecodeError (StatusServerBoundPacket × Bytes) :=
  if typeId = 0x00 then .ok (.statusRequest, s)
  else if typeId = 0x01 then (PingRequest.decode s).map fun q => (.pingRequest q.1, q.2)
  else .error (.unknownPacketType typeId)

def StatusServerBoundPacket.encode (p : StatusServerBoundPacket) : Except EncodeError Bytes :=
  enumEncode p.typeId p.encodeBody

def StatusServerBoundPacket.decode (s : Bytes) :
    Except DecodeError (StatusServerBoundPacket × Bytes) :=
  enumDecode StatusServerBoundPacket.decodeBody s

def StatusServerBoundPacket.wf : StatusServerBoundPacket → Prop
  | .statusRequest => True
  | .pingRequest p => p.wf

theorem StatusServerBoundPacket_rt (p : StatusServerBoundPacket) (h : p.wf) :
    ∃ b, StatusServerBoundPacket.encode p = .ok b ∧
      StatusServerBoundPacket.decode b = .ok (p, []) := by
  cases p with
  | statusRequest =>
    refine ⟨writeVarI32 ((0 : Nat) : Int) ++ [], rfl, ?_⟩
    rw [StatusServerBoundPacket.decode]
    apply enumDecode_encode _ 0 (by norm_num)
    rfl
  | pingRequest q =>
    obtain ⟨b, hb1, hb2⟩ := PingRequest_rt q h []
    refine ⟨writeVarI32 ((1 : Nat) : Int) ++ b, ?_, ?_⟩
    · rw [StatusServerBoundPacket.encode, StatusServerBoundPacket.typeId,
        StatusServerBoundPacket.encodeBody, hb1, enumEncode_ok]
    · rw [StatusServerBoundPacket.decode]
      apply enumDecode_encode _ 1 (by norm_num)
      rw [StatusServerBoundPacket.decodeBody]
      norm_num
      rw [List.append_nil] at hb2
      rw [hb2]
      rfl

/-- Source model: `packet/status.rs` `StatusClientBoundPacket`. -/
inductive StatusClientBoundPacket where
  | statusResponse (p : StatusResponse)
  | pingResponse (p : PingResponse)
  deriving DecidableEq, Repr

def StatusClientBoundPacket.typeId : StatusClientBoundPacket → Nat
  | .statusResponse _ => 0x00
  | .pingResponse _ => 0x01

def StatusClientBoundPacket.encodeBody : StatusClientBoundPacket → Except EncodeError Bytes
  | .statusResponse p => p.encode
  | .pingResponse p => p.encode

def StatusClientBoundPacket.decodeBody (typeId : Nat) (s : Bytes) :
    Except DecodeError (StatusClientBoundPacket × Bytes) :=
  if typeId = 0x00 then (StatusResponse.decode s).map fun q => (.statusResponse q.1, q.2)
  else if typeId = 0x01 then (PingResponse.decode s).map fun q => (.pingResponse q.1, q.2)
  else .error (.unknownPacketType typeId)

def StatusClientBoundPacket.encode (p : StatusClientBoundPacket) : Except EncodeError Bytes :=
  enumEncode p.typeId p.encodeBody

def StatusClientBoundPacket.decode (s : Bytes) :
    Except DecodeError (StatusClientBoundPacket × Bytes) :=
  enumDecode StatusClientBoundPacket.decodeBody s

def StatusClientBoundPacket.wf : StatusClientBoundPacket → Prop
  | .statusResponse p => p.wf
  | .pingResponse p => p.wf

theorem StatusClientBoundPacket_rt (p : StatusClientBoundPacket) (h : p.wf) :
    ∃ b, StatusClientBoundPacket.encode p = .ok b ∧
      StatusClientBoundPacket.decode b = .ok (p, []) := by
  cases p with
  | statusResponse q =>
    obtain ⟨b, hb1, hb2⟩ := StatusResponse_rt q h []
    refine ⟨writeVarI32 ((0 : Nat) : Int) ++ b, ?_, ?_⟩
    · rw [StatusClientBoundPacket.encode, StatusClientBoundPacket.typeId,
        StatusClientBoundPacket.encodeBody, hb1, enumEncode_ok]
    · rw [StatusClientBoundPacket.decode]
      apply enumDecode_encode _ 0 (by norm_num)
      rw [StatusClientBoundPacket.decodeBody]
      norm_num
      rw [List.append_nil] at hb2
      rw [hb2]
      rfl
  | pingResponse q =>
    obtain ⟨b, hb1, hb2⟩ := PingResponse_rt q h []
    refine ⟨writeVarI32 ((1 : Nat) : Int) ++ b, ?_, ?_⟩
    · rw [StatusClientBoundPacket.encode, StatusClientBoundPacket.typeId,
        StatusClientBoundPacket.encodeBody, hb1, enumEncode_ok]
    · rw [StatusClientBoundPacket.decode]
      apply enumDecode_encode _ 1 (by norm_num)
      rw [StatusClientBoundPacket.decodeBody]
      norm_num
      rw [List.append_nil] at hb2
      rw [hb2]
      rfl

end MCProxy

namespace MCProxy

/-- Source model: `packet/login.rs` `LoginStart`.  Per spec §4.B the
`uuid` field travels in the hyphenated-UUID string form. -/
structure LoginStart where
  name : Bytes
  uuid : Bytes
  deriving DecidableEq, Repr

def LoginStart.wf (p : LoginStart) : Prop :=
  p.name.length ≤ 32768 ∧ utf8Valid p.name = true ∧
    p.uuid.length = 16 ∧ ∀ b ∈ p.uuid, b < 256

def LoginStart.encode (p : LoginStart) : Except EncodeError Bytes := do
  let n ← writeString 32768 p.name
  let u ← uuidHypStrEncode p.uuid
  .ok (n ++ u)

def LoginStart.decode (s : Bytes) : Except DecodeError (LoginStart × Bytes) := do
  let (n, s) ← readString 32768 s
  let (u, s) ← uuidHypStrDecode s
  .ok (⟨n, u⟩, s)

theorem LoginStart_rt (p : LoginStart) (h : p.wf) (rest : Bytes) :
    ∃ b, LoginStart.encode p = .ok b ∧ LoginStart.decode (b ++ rest) = .ok (p, rest) := by
  obtain ⟨h1, h2, h3, h4⟩ := h
  have hn := (readString_writeString 32768 p.name [] h1 (by norm_num) h2).1
  have hu := (uuidHypStr_roundtrip p.uuid [] h3 h4).1
  refine ⟨_, by rw [LoginStart.encode, hn, hu]; rfl, ?_⟩
  rw [LoginStart.decode]
  simp only [List.append_assoc]
  rw [rt_string 32768 p.name _ h1 (by norm_num) h2]
  simp only [except_bind_ok]
  rw [rt_uuidHyp p.uuid rest h3 h4]
  rfl

/-- Source model: `packet/login.rs` `EncryptionResponse`. -/
structure EncryptionResponse where
  shared_secret : Bytes
  verify_token : Bytes
  deriving DecidableEq, Repr

def EncryptionResponse.wf (p : EncryptionResponse) : Prop :=
  p.shared_secret.length < 2 ^ 31 ∧ p.verify_token.length < 2 ^ 31

def EncryptionResponse.encode (p : EncryptionResponse) : Except EncodeError Bytes :=
  .ok (writeByteArray p.shared_secret ++ writeByteArray p.verify_token)

def EncryptionResponse.decode (s : Bytes) : Except DecodeError (EncryptionResponse × Bytes) := do
  let (ss, s) ← readByteArray s
  let (vt, s) ← readByteArray s
  .ok (⟨ss, vt⟩, s)

theorem EncryptionResponse_rt (p : EncryptionResponse) (h : p.wf) (rest : Bytes) :
    ∃ b, EncryptionResponse.encode p = .ok b ∧
      EncryptionResponse.decode (b ++ rest) = .ok (p, rest) := by
  obtain ⟨h1, h2⟩ := h
  refine ⟨_, rfl, ?_⟩
  rw [EncryptionResponse.decode]
  simp only [writeByteArray, List.append_assoc]
  rw [rt_byteArray p.shared_secret _ h1]
  simp only [except_bind_ok]
  rw [rt_byteArray p.verify_token rest h2]
  rfl

/-- Source model: `packet/login.rs` `LoginPluginResponse`
(`message_id` VarInt, `successful` bool, `data` rest). -/
structure LoginPluginResponse where
  message_id : Int
  successful : Bool
  data : Bytes
  deriving DecidableEq, Repr

def LoginPluginResponse.wf (p : LoginPluginResponse) : Prop :=
  -(2 ^ 31) ≤ p.message_id ∧ p.message_id < 2 ^ 31

def LoginPluginResponse.encode (p : LoginPluginResponse) : Except EncodeError Bytes :=
  .ok (writeVarI32 p.message_id ++ (writeBool p.successful ++ p.data))

def LoginPluginResponse.decode (s : Bytes) : Except DecodeError (LoginPluginResponse × Bytes) := do
  let (m, s) ← readVarI32 s
  let (ok, s) ← readBool s
  let (d, s) ← readRest s
  .ok (⟨m, ok, d⟩, s)

theorem LoginPluginResponse_rt (p : LoginPluginResponse) (h : p.wf) :
    ∃ b, LoginPluginResponse.encode p = .ok b ∧
      LoginPluginResponse.decode (b ++ []) = .ok (p, []) := by
  obtain ⟨h1, h2⟩ := h
  refine ⟨_, rfl, ?_⟩
  rw [LoginPluginResponse.decode]
  simp only [List.append_assoc, List.append_nil]
  rw [readVarI32_writeVarI32 _ h1 h2]
  simp only [except_bind_ok]
  rw [readBool_writeBool]
  simp only [except_bind_ok]
  rfl

/-- Source model: `packet/login.rs` `LoginDisconnect` (JSON chat
reason as a string). -/
structure LoginDisconnect where
  reason : Bytes
  deriving DecidableEq, Repr

def LoginDisconnect.wf (p : LoginDisconnect) : Prop :=
  p.reason.length ≤ 32768 ∧ utf8Valid p.reason = true

def LoginDisconnect.encode (p : LoginDisconnect) : Except EncodeError Bytes :=
  writeString 32768 p.reason

def LoginDisconnect.decode (s : Bytes) : Except DecodeError (LoginDisconnect × Bytes) := do
  let (r, s) ← readString 32768 s
  .ok (⟨r⟩, s)

theorem LoginDisconnect_rt (p : LoginDisconnect) (h : p.wf) (rest : Bytes) :
    ∃ b, LoginDisconnect.encode p = .ok b ∧
      LoginDisconnect.decode (b ++ rest) = .ok (p, rest) := by
  obtain ⟨h1, h2⟩ := h
  have hrt := readString_writeString 32768 p.reason rest h1 (by norm_num) h2
  refine ⟨_, hrt.1, ?_⟩
  rw [LoginDisconnect.decode, hrt.2]
  rfl

/-- Source model: `packet/login.rs` `EncryptionRequest`
(`server_id` string max 20, two byte arrays). -/
structure EncryptionRequest where
  server_id : Bytes
  public_key : Bytes
  verify_token : Bytes
  deriving DecidableEq, Repr

def EncryptionRequest.wf (p : EncryptionRequest) : Prop :=
  p.server_id.length ≤ 20 ∧ utf8Valid p.server_id = true ∧
    p.public_key.length < 2 ^ 31 ∧ p.verify_token.length < 2 ^ 31

def EncryptionRequest.encode (p : EncryptionRequest) : Except EncodeError Bytes := do
  let sid ← writeString 20 p.server_id
  .ok (sid ++ (writeByteArray p.public_key ++ writeByteArray p.verify_token))

def EncryptionRequest.decode (s : Bytes) : Except DecodeError (EncryptionRequest × Bytes) := do
  let (sid, s) ← readString 20 s
  let (pk, s) ← readByteArray s
  let (vt, s) ← readByteArray s
  .ok (⟨sid, pk, vt⟩, s)

theorem EncryptionRequest_rt (p : EncryptionRequest) (h : p.wf) (rest : Bytes) :
    ∃ b, EncryptionRequest.encode p = .ok b ∧
      EncryptionRequest.decode (b ++ rest) = .ok (p, rest) := by
  obtain ⟨h1, h2, h3, h4⟩ := h
  have hsid := (readString_writeString 20 p.server_id [] h1 (by norm_num) h2).1
  refine ⟨_, by rw [EncryptionRequest.encode, hsid]; rfl, ?_⟩
  rw [EncryptionRequest.decode]
  simp only [writeByteArray, List.append_assoc]
  rw [rt_string 20 p.server_id _ h1 (by norm_num) h2]
  simp only [except_bind_ok]
  rw [rt_byteArray p.public_key _ h3]
  simp only [except_bind_ok]
  rw [rt_byteArray p.verify_token rest h4]
  rfl

/-- Source model: `packet/login.rs` `LoginSuccess` (raw 16-byte UUID,
username string max 16). -/
structure LoginSuccess where
  uuid : Bytes
  username : Bytes
  deriving DecidableEq, Repr

def LoginSuccess.wf (p : LoginSuccess) : Prop :=
  p.uuid.length = 16 ∧ p.username.length ≤ 16 ∧ utf8Valid p.username = true

def LoginSuccess.encode (p : LoginSuccess) : Except EncodeError Bytes := do
  let un ← writeString 16 p.username
  .ok (p.uuid ++ un)

def LoginSuccess.decode (s : Bytes) : Except DecodeError (LoginSuccess × Bytes) := do
  let (u, s) ← readUuid s
  let (un, s) ← readString 16 s
  .ok (⟨u, un⟩, s)

theorem LoginSuccess_rt (p : LoginSuccess) (h : p.wf) (rest : Bytes) :
    ∃ b, LoginSuccess.encode p = .ok b ∧ LoginSuccess.decode (b ++ rest) = .ok (p, rest) := by
  obtain ⟨h1, h2, h3⟩ := h
  have hun := (readString_writeString 16 p.username [] h2 (by norm_num) h3).1
  refine ⟨_, by rw [LoginSuccess.encode, hun]; rfl, ?_⟩
  rw [LoginSuccess.decode]
  simp only [List.append_assoc]
  rw [readUuid_append p.uuid _ h1]
  simp only [except_bind_ok]
  rw [rt_string 16 p.username rest h2 (by norm_num) h3]
  rfl

/-- Source model: `packet/login.rs` `SetCompression` (VarInt
threshold). -/
structure SetCompression where
  threshold : Int
  deriving DecidableEq, Repr

def SetCompression.wf (p : SetCompression) : Prop :=
  -(2 ^ 31) ≤ p.threshold ∧ p.threshold < 2 ^ 31

def SetCompression.encode (p : SetCompression) : Except EncodeError Bytes :=
  .ok (writeVarI32 p.threshold)

def SetCompression.decode (s : Bytes) : Except DecodeError (SetCompression × Bytes) := do
  let (t, s) ← readVarI32 s
  .ok (⟨t⟩, s)

theorem SetCompression_rt (p : SetCompression) (h : p.wf) (rest : Bytes) :
    ∃ b, SetCompression.encode p = .ok b ∧
      SetCompression.decode (b ++ rest) = .ok (p, rest) := by
  refine ⟨_, rfl, ?_⟩
  rw [SetCompression.decode, readVarI32_writeVarI32 _ h.1 h.2]
  rfl

/-- Source model: `packet/login.rs` `LoginPluginRequest` (VarInt id,
channel string, rest data). -/
structure LoginPluginRequest where
  message_id : Int
  channel : Bytes
  data : Bytes
  deriving DecidableEq, Repr

def LoginPluginRequest.wf (p : LoginPluginRequest) : Prop :=
  -(2 ^ 31) ≤ p.message_id ∧ p.message_id < 2 ^ 31 ∧
    p.channel.length ≤ 32768 ∧ utf8Valid p.channel = true

def LoginPluginRequest.encode (p : LoginPluginRequest) : Except EncodeError Bytes := do
  let ch ← writeString 32768 p.channel
  .ok (writeVarI32 p.message_id ++ (ch ++ p.data))

def LoginPluginRequest.decode (s : Bytes) : Except DecodeError (LoginPluginRequest × Bytes) := do
  let (m, s) ← readVarI32 s
  let (ch, s) ← readString 32768 s
  let (d, s) ← readRest s
  .ok (⟨m, ch, d⟩, s)

theorem LoginPluginRequest_rt (p : LoginPluginRequest) (h : p.wf) :
    ∃ b, LoginPluginRequest.encode p = .ok b ∧
      LoginPluginRequest.decode (b ++ []) = .ok (p, []) := by
  obtain ⟨h1, h2, h3, h4⟩ := h
  have hch := (readString_writeString 32768 p.channel [] h3 (by norm_num) h4).1
  refine ⟨_, by rw [LoginPluginRequest.encode, hch]; rfl, ?_⟩
  rw [LoginPluginRequest.decode]
  simp only [List.append_assoc, List.append_nil]
  rw [readVarI32_writeVarI32 _ h1 h2]
  simp only [except_bind_ok]
  rw [rt_string 32768 p.channel _ h3 (by norm_num) h4]
  simp only [except_bind_ok]
  rfl

end MCProxy

namespace MCProxy

/-- Source model: `packet/login.rs` `LoginServerBoundPacket`. -/
inductive LoginServerBoundPacket where
  | loginStart (p : LoginStart)
  | encryptionResponse (p : EncryptionResponse)
  | loginPluginResponse (p : LoginPluginResponse)
  | loginAcknowledged
  deriving DecidableEq, Repr

def LoginServerBoundPacket.typeId : LoginServerBoundPacket → Nat
  | .loginStart _ => 0x00
  | .encryptionResponse _ => 0x01
  | .loginPluginResponse _ => 0x02
  | .loginAcknowledged => 0x03

def LoginServerBoundPacket.encodeBody : LoginServerBoundPacket → Except EncodeError Bytes
  | .loginStart p => p.encode
  | .encryptionResponse p => p.encode
  | .loginPluginResponse p => p.encode
  | .loginAcknowledged => .ok []

def LoginServerBoundPacket.decodeBody (typeId : Nat) (s : Bytes) :
    Except DecodeError (LoginServerBoundPacket × Bytes) :=
  if typeId = 0x00 then (LoginStart.decode s).map fun q => (.loginStart q.1, q.2)
  else if typeId = 0x01 then
    (EncryptionResponse.decode s).map fun q => (.encryptionResponse q.1, q.2)
  else if typeId = 0x02 then
    (LoginPluginResponse.decode s).map fun q => (.loginPluginResponse q.1, q.2)
  else if typeId = 0x03 then .ok (.loginAcknowledged, s)
  else .error (.unknownPacketType typeId)

def LoginServerBoundPacket.encode (p : LoginServerBoundPacket) : Except EncodeError Bytes :=
  enumEncode p.typeId p.encodeBody

def LoginServerBoundPacket.decode (s : Bytes) :
    Except DecodeError (LoginServerBoundPacket × Bytes) :=
  enumDecode LoginServerBoundPacket.decodeBody s

def LoginServerBoundPacket.wf : LoginServerBoundPacket → Prop
  | .loginStart p => p.wf
  | .encryptionResponse p => p.wf
  | .loginPluginResponse p => p.wf
  | .loginAcknowledged => True

theorem LoginServerBoundPacket_rt (p : LoginServerBoundPacket) (h : p.wf) :
    ∃ b, LoginServerBoundPacket.encode p = .ok b ∧
      LoginServerBoundPacket.decode b = .ok (p, []) := by
  cases p with
  | loginStart q =>
    obtain ⟨b, hb1, hb2⟩ := LoginStart_rt q h []
    refine ⟨writeVarI32 ((0 : Nat) : Int) ++ b, ?_, ?_⟩
    · rw [LoginServerBoundPacket.encode, LoginServerBoundPacket.typeId,
        LoginServerBoundPacket.encodeBody, hb1, enumEncode_ok]
    · rw [LoginServerBoundPacket.decode]
      apply enumDecode_encode _ 0 (by norm_num)
      rw [LoginServerBoundPacket.decodeBody]
      norm_num
      rw [List.append_nil] at hb2
      rw [hb2]
      rfl
  | encryptionResponse q =>
    obtain ⟨b, hb1, hb2⟩ := EncryptionResponse_rt q h []
    refine ⟨writeVarI32 ((1 : Nat) : Int) ++ b, ?_, ?_⟩
    · rw [LoginServerBoundPacket.encode, LoginServerBoundPacket.typeId,
        LoginServerBoundPacket.encodeBody, hb1, enumEncode_ok]
    · rw [LoginServerBoundPacket.decode]
      apply enumDecode_encode _ 1 (by norm_num)
      rw [LoginServerBoundPacket.decodeBody]
      norm_num
      rw [List.append_nil] at hb2
      rw [hb2]
      rfl
  | loginPluginResponse q =>
    obtain ⟨b, hb1, hb2⟩ := LoginPluginResponse_rt q h
    refine ⟨writeVarI32 ((2 : Nat) : Int) ++ b, ?_, ?_⟩
    · rw [LoginServerBoundPacket.encode, LoginServerBoundPacket.typeId,
        LoginServerBoundPacket.encodeBody, hb1, enumEncode_ok]
    · rw [LoginServerBoundPacket.decode]
      apply enumDecode_encode _ 2 (by norm_num)
      rw [LoginServerBoundPacket.decodeBody]
      norm_num
      rw [List.append_nil] at hb2
      rw [hb2]
      rfl
  | loginAcknowledged =>
    refine ⟨writeVarI32 ((3 : Nat) : Int) ++ [], rfl, ?_⟩
    rw [LoginServerBoundPacket.decode]
    apply enumDecode_encode _ 3 (by norm_num)
    rw [LoginServerBoundPacket.decodeBody]
    norm_num

/-- Source model: `packet/login.rs` `LoginClientBoundPacket`. -/
inductive LoginClientBoundPacket where
  | loginDisconnect (p : LoginDisconnect)
  | encryptionRequest (p : EncryptionRequest)
  | loginSuccess (p : LoginSuccess)
  | setCompression (p : SetCompression)
  | loginPluginRequest (p : LoginPluginRequest)
  deriving DecidableEq, Repr

def LoginClientBoundPacket.typeId : LoginClientBoundPacket → Nat
  | .loginDisconnect _ => 0x00
  | .encryptionRequest _ => 0x01
  | .loginSuccess _ => 0x02
  | .setCompression _ => 0x03
  | .loginPluginRequest _ => 0x04

def LoginClientBoundPacket.encodeBody : LoginClientBoundPacket → Except EncodeError Bytes
  | .loginDisconnect p => p.encode
  | .encryptionRequest p => p.encode
  | .loginSuccess p => p.encode
  | .setCompression p => p.encode
  | .loginPluginRequest p => p.encode

def LoginClientBoundPacket.decodeBody (typeId : Nat) (s : Bytes) :
    Except DecodeError (LoginClientBoundPacket × Bytes) :=
  if typeId = 0x00 then (LoginDisconnect.decode s).map fun q => (.loginDisconnect q.1, q.2)
  else if typeId = 0x01 then
    (EncryptionRequest.decode s).map fun q => (.encryptionRequest q.1, q.2)
  else if typeId = 0x02 then (LoginSuccess.decode s).map fun q => (.loginSuccess q.1, q.2)
  else if typeId = 0x03 then (SetCompression.decode s).map fun q => (.setCompression q.1, q.2)
  else if typeId = 0x04 then
    (LoginPluginRequest.decode s).map fun q => (.loginPluginRequest q.1, q.2)
  else .error (.unknownPacketType typeId)

def LoginClientBoundPacket.encode (p : LoginClientBoundPacket) : Except EncodeError Bytes :=
  enumEncode p.typeId p.encodeBody

def LoginClientBoundPacket.decode (s : Bytes) :
    Except DecodeError (LoginClientBoundPacket × Bytes) :=
  enumDecode LoginClientBoundPacket.decodeBody s

def LoginClientBoundPacket.wf : LoginClientBoundPacket → Prop
  | .loginDisconnect p => p.wf
  | .encryptionRequest p => p.wf
  | .loginSuccess p => p.wf
  | .setCompression p => p.wf
  | .loginPluginRequest p => p.wf

theorem LoginClientBoundPacket_rt (p : LoginClientBoundPacket) (h : p.wf) :
    ∃ b, LoginClientBoundPacket.encode p = .ok b ∧
      LoginClientBoundPacket.decode b = .ok (p, []) := by
  cases p with
  | loginDisconnect q =>
    obtain ⟨b, hb1, hb2⟩ := LoginDisconnect_rt q h []
    refine ⟨writeVarI32 ((0 : Nat) : Int) ++ b, ?_, ?_⟩
    · rw [LoginClientBoundPacket.encode, LoginClientBoundPacket.typeId,
        LoginClientBoundPacket.encodeBody, hb1, enumEncode_ok]
    · rw [LoginClientBoundPacket.decode]
      apply enumDecode_encode _ 0 (by norm_num)
      rw [LoginClientBoundPacket.decodeBody]
      norm_num
      rw [List.append_nil] at hb2
      rw [hb2]
      rfl
  | encryptionRequest q =>
    obtain ⟨b, hb1, hb2⟩ := EncryptionRequest_rt q h []
    refine ⟨writeVarI32 ((1 : Nat) : Int) ++ b, ?_, ?_⟩
    · rw [LoginClientBoundPacket.encode, LoginClientBoundPacket.typeId,
        LoginClientBoundPacket.encodeBody, hb1, enumEncode_ok]
    · rw [LoginClientBoundPacket.decode]
      apply enumDecode_encode _ 1 (by norm_num)
      rw [LoginClientBoundPacket.decodeBody]
      norm_num
      rw [List.append_nil] at hb2
      rw [hb2]
      rfl
  | loginSuccess q =>
    obtain ⟨b, hb1, hb2⟩ := LoginSuccess_rt q h []
    refine ⟨writeVarI32 ((2 : Nat) : Int) ++ b, ?_, ?_⟩
    · rw [LoginClientBoundPacket.encode, LoginClientBoundPacket.typeId,
        LoginClientBoundPacket.encodeBody, hb1, enumEncode_ok]
    · rw [LoginClientBoundPacket.decode]
      apply enumDecode_encode _ 2 (by norm_num)
      rw [LoginClientBoundPacket.decodeBody]
      norm_num
      rw [List.append_nil] at hb2
      rw [hb2]
      rfl
  | setCompression q =>
    obtain ⟨b, hb1, hb2⟩ := SetCompression_rt q h []
    refine ⟨writeVarI32 ((3 : Nat) : Int) ++ b, ?_, ?_⟩
    · rw [LoginClientBoundPacket.encode, LoginClientBoundPacket.typeId,
        LoginClientBoundPacket.encodeBody, hb1, enumEncode_ok]
    · rw [LoginClientBoundPacket.decode]
      apply enumDecode_encode _ 3 (by norm_num)
      rw [LoginClientBoundPacket.decodeBody]
      norm_num
      rw [List.append_nil] at hb2
      rw [hb2]
      rfl
  | loginPluginRequest q =>
    obtain ⟨b, hb1, hb2⟩ := LoginPluginRequest_rt q h
    refine ⟨writeVarI32 ((4 : Nat) : Int) ++ b, ?_, ?_⟩
    · rw [LoginClientBoundPacket.encode, LoginClientBoundPacket.typeId,
        LoginClientBoundPacket.encodeBody, hb1, enumEncode_ok]
    · rw [LoginClientBoundPacket.decode]
      apply enumDecode_encode _ 4 (by norm_num)
      rw [LoginClientBoundPacket.decodeBody]
      norm_num
      rw [List.append_nil] at hb2
      rw [hb2]
      rfl

end MCProxy

namespace MCProxy

/-- Modelled from the spec: the `u8` writer of the missing
`encoder.rs` (one raw byte). -/
def writeU8 (v : Nat) : Bytes := [v]

theorem rt_u8 (v : Nat) (rest : Bytes) : readU8 (writeU8 v ++ rest) = .ok (v, rest) := rfl

/-- Source model: `packet/configuration.rs` `ChatMode` (ordinals 0-2);
VarInt codec modelled from the spec. -/
inductive ChatMode where
  | enabled
  | commandsOnly
  | hidden
  deriving DecidableEq, Repr

def ChatMode.ordinal : ChatMode → Int
  | .enabled => 0
  | .commandsOnly => 1
  | .hidden => 2

def ChatMode.decode (s : Bytes) : Except DecodeError (ChatMode × Bytes) := do
  let (v, s) ← readVarI32 s
  if v = 0 then .ok (.enabled, s)
  else if v = 1 then .ok (.commandsOnly, s)
  else if v = 2 then .ok (.hidden, s)
  else .error (.unknownEnumType (usizeOfI32 v))

theorem rt_chatMode (m : ChatMode) (rest : Bytes) :
    ChatMode.decode (writeVarI32 m.ordinal ++ rest) = .ok (m, rest) := by
  cases m <;>
    · rw [ChatMode.decode, ChatMode.ordinal,
        readVarI32_writeVarI32 _ (by norm_num) (by norm_num)]
      simp

/-- Source model: `packet/configuration.rs` `ResourcePackResult`
(ordinals 0-7); VarInt codec modelled from the spec. -/
inductive ResourcePackResult where
  | successfullyDownloaded
  | declined
  | downloadFailed
  | accepted
  | downloaded
  | invalidUrl
  | reloadFailed
  | discarded
  deriving DecidableEq, Repr

def ResourcePackResult.ordinal : ResourcePackResult → Int
  | .successfullyDownloaded => 0
  | .declined => 1
  | .downloadFailed => 2
  | .accepted => 3
  | .downloaded => 4
  | .invalidUrl => 5
  | .reloadFailed => 6
  | .discarded => 7

def ResourcePackResult.decode (s : Bytes) : Except DecodeError (ResourcePackResult × Bytes) := do
  let (v, s) ← readVarI32 s
  if v = 0 then .ok (.successfullyDownloaded, s)
  else if v = 1 then .ok (.declined, s)
  else if v = 2 then .ok (.downloadFailed, s)
  else if v = 3 then .ok (.accepted, s)
  else if v = 4 then .ok (.downloaded, s)
  else if v = 5 then .ok (.invalidUrl, s)
  else if v = 6 then .ok (.reloadFailed, s)
  else if v = 7 then .ok (.discarded, s)
  else .error (.unknownEnumType (usizeOfI32 v))

theorem rt_resourcePackResult (m : ResourcePackResult) (rest : Bytes) :
    ResourcePackResult.decode (writeVarI32 m.ordinal ++ rest) = .ok (m, rest) := by
  cases m <;>
    · rw [ResourcePackResult.decode, ResourcePackResult.ordinal,
        readVarI32_writeVarI32 _ (by norm_num) (by norm_num)]
      simp

/-- Source model: `bool_option::decode` in `decoder.rs`: one bool,
then the inner value when true. -/
def boolOptionDecode {α : Type _} (inner : Bytes → Except DecodeError (α × Bytes))
    (s : Bytes) : Except DecodeError (Option α × Bytes) := do
  let (b, s) ← readBool s
  match b with
  | true => do
    let (v, s2) ← inner s
    .ok (some v, s2)
  | false => .ok (none, s)

/-- Modelled from the spec: the optional-via-bool writer. -/
def boolOptionEncode {α : Type _} (innerEnc : α → Except EncodeError Bytes) :
    Option α → Except EncodeError Bytes
  | some v => do
    let b ← innerEnc v
    .ok (writeBool true ++ b)
  | none => .ok (writeBool false)

theorem rt_boolOption_some {α : Type _} (inner : Bytes → Except DecodeError (α × Bytes))
    (v : α) (b rest : Bytes) (hd : inner (b ++ rest) = .ok (v, rest)) :
    boolOptionDecode inner ((writeBool true ++ b) ++ rest) = .ok (some v, rest) := by
  rw [boolOptionDecode, List.append_assoc, readBool_writeBool]
  simp only [except_bind_ok]
  rw [hd]
  rfl

theorem rt_boolOption_none {α : Type _} (inner : Bytes → Except DecodeError (α × Bytes))
    (rest : Bytes) :
    boolOptionDecode inner (writeBool false ++ rest) = .ok (none, rest) := by
  rw [boolOptionDecode, readBool_writeBool]
  rfl

/-- Source model: `packet/configuration.rs` `ClientInformation`. -/
structure ClientInformation where
  locale : Bytes
  view_distance : Nat
  chat_mode : ChatMode
  chat_colors : Bool
  display_skin_parts : Nat
  main_hand : Int
  enable_text_filtering : Bool
  allow_server_listings : Bool
  deriving DecidableEq, Repr

def ClientInformation.wf (p : ClientInformation) : Prop :=
  p.locale.length ≤ 16 ∧ utf8Valid p.locale = true ∧ p.view_distance < 256 ∧
    p.display_skin_parts < 256 ∧ -(2 ^ 31) ≤ p.main_hand ∧ p.main_hand < 2 ^ 31

def ClientInformation.encode (p : ClientInformation) : Except EncodeError Bytes := do
  let loc ← writeString 16 p.locale
  .ok (loc ++ (writeU8 p.view_distance ++ (writeVarI32 p.chat_mode.ordinal ++
    (writeBool p.chat_colors ++ (writeU8 p.display_skin_parts ++ (writeVarI32 p.main_hand ++
      (writeBool p.enable_text_filtering ++ writeBool p.allow_server_listings)))))))

def ClientInformation.decode (s : Bytes) : Except DecodeError (ClientInformation × Bytes) := do
  let (loc, s) ← readString 16 s
  let (vd, s) ← readU8 s
  let (cm, s) ← ChatMode.decode s
  let (cc, s) ← readBool s
  let (dsp, s) ← readU8 s
  let (mh, s) ← readVarI32 s
  let (etf, s) ← readBool s
  let (asl, s) ← readBool s
  .ok (⟨loc, vd, cm, cc, dsp, mh, etf, asl⟩, s)

theorem ClientInformation_rt (p : ClientInformation) (h : p.wf) (rest : Bytes) :
    ∃ b, ClientInformation.encode p = .ok b ∧
      ClientInformation.decode (b ++ rest) = .ok (p, rest) := by
  obtain ⟨h1, h2, h3, h4, h5, h6⟩ := h
  have hloc := (readString_writeString 16 p.locale [] h1 (by norm_num) h2).1
  refine ⟨_, by rw [ClientInformation.encode, hloc]; rfl, ?_⟩
  rw [ClientInformation.decode]
  simp only [List.append_assoc]
  rw [rt_string 16 p.locale _ h1 (by norm_num) h2]
  simp only [except_bind_ok]
  rw [rt_u8]
  simp only [except_bind_ok]
  rw [rt_chatMode]
  simp only [except_bind_ok]
  rw [readBool_writeBool]
  simp only [except_bind_ok]
  rw [rt_u8]
  simp only [except_bind_ok]
  rw [readVarI32_writeVarI32 _ h5 h6]
  simp only [except_bind_ok]
  rw [readBool_writeBool]
  simp only [except_bind_ok]
  rw [readBool_writeBool]
  rfl

end MCProxy

namespace MCProxy

/-- Source model: `packet/configuration.rs` `ServerBoundPluginMessage`
(channel string, rest data). -/
structure ServerBoundPluginMessage where
  channel : Bytes
  data : Bytes
  deriving DecidableEq, Repr

def ServerBoundPluginMessage.wf (p : ServerBoundPluginMessage) : Prop :=
  p.channel.length ≤ 32768 ∧ utf8Valid p.channel = true

def ServerBoundPluginMessage.encode (p : ServerBoundPluginMessage) : Except EncodeError Bytes := do
  let ch ← writeString 32768 p.channel
  .ok (ch ++ p.data)

def ServerBoundPluginMessage.decode (s : Bytes) :
    Except DecodeError (ServerBoundPluginMessage × Bytes) := do
  let (ch, s) ← readString 32768 s
  let (d, s) ← readRest s
  .ok (⟨ch, d⟩, s)

theorem ServerBoundPluginMessage_rt (p : ServerBoundPluginMessage) (h : p.wf) :
    ∃ b, ServerBoundPluginMessage.encode p = .ok b ∧
      ServerBoundPluginMessage.decode (b ++ []) = .ok (p, []) := by
  obtain ⟨h1, h2⟩ := h
  have hch := (readString_writeString 32768 p.channel [] h1 (by norm_num) h2).1
  refine ⟨_, by rw [ServerBoundPluginMessage.encode, hch]; rfl, ?_⟩
  rw [ServerBoundPluginMessage.decode]
  simp only [List.append_assoc, List.append_nil]
  rw [rt_string 32768 p.channel _ h1 (by norm_num) h2]
  simp only [except_bind_ok]
  rfl

/-- Source model: `packet/configuration.rs` `ServerBoundKeepAlive`
(`id: u64`). -/
structure ServerBoundKeepAlive where
  id : Nat
  deriving DecidableEq, Repr

def ServerBoundKeepAlive.wf (p : ServerBoundKeepAlive) : Prop := p.id < 2 ^ 64

def ServerBoundKeepAlive.encode (p : ServerBoundKeepAlive) : Except EncodeError Bytes :=
  .ok (writeBE 8 p.id)

def ServerBoundKeepAlive.decode (s : Bytes) :
    Except DecodeError (ServerBoundKeepAlive × Bytes) := do
  let (v, s) ← readBE 8 s
  .ok (⟨v⟩, s)

theorem ServerBoundKeepAlive_rt (p : ServerBoundKeepAlive) (h : p.wf) (rest : Bytes) :
    ∃ b, ServerBoundKeepAlive.encode p = .ok b ∧
      ServerBoundKeepAlive.decode (b ++ rest) = .ok (p, rest) := by
  refine ⟨_, rfl, ?_⟩
  rw [ServerBoundKeepAlive.decode, readBE_writeBE 8 p.id
    (by have h2 : p.id < 2 ^ 64 := h; norm_num at h2 ⊢; omega)]
  rfl

/-- Source model: `packet/configuration.rs` `Pong` (`id: u32`). -/
structure Pong where
  id : Nat
  deriving DecidableEq, Repr

def Pong.wf (p : Pong) : Prop := p.id < 2 ^ 32

def Pong.encode (p : Pong) : Except EncodeError Bytes :=
  .ok (writeBE 4 p.id)

def Pong.decode (s : Bytes) : Except DecodeError (Pong × Bytes) := do
  let (v, s) ← readBE 4 s
  .ok (⟨v⟩, s)

theorem Pong_rt (p : Pong) (h : p.wf) (rest : Bytes) :
    ∃ b, Pong.encode p = .ok b ∧ Pong.decode (b ++ rest) = .ok (p, rest) := by
  refine ⟨_, rfl, ?_⟩
  rw [Pong.decode, readBE_writeBE 4 p.id
    (by have h2 : p.id < 2 ^ 32 := h; norm_num at h2 ⊢; omega)]
  rfl

/-- Source model: `packet/configuration.rs` `ResourcePackResponse`
(raw 16-byte UUID, VarInt enum result). -/
structure ResourcePackResponse where
  uuid : Bytes
  result : ResourcePackResult
  deriving DecidableEq, Repr

def ResourcePackResponse.wf (p : ResourcePackResponse) : Prop := p.uuid.length = 16

def ResourcePackResponse.encode (p : ResourcePackResponse) : Except EncodeError Bytes :=
  .ok (p.uuid ++ writeVarI32 p.result.ordinal)

def ResourcePackResponse.decode (s : Bytes) :
    Except DecodeError (ResourcePackResponse × Bytes) := do
  let (u, s) ← readUuid s
  let (r, s) ← ResourcePackResult.decode s
  .ok (⟨u, r⟩, s)

theorem ResourcePackResponse_rt (p : ResourcePackResponse) (h : p.wf) (rest : Bytes) :
    ∃ b, ResourcePackResponse.encode p = .ok b ∧
      ResourcePackResponse.decode (b ++ rest) = .ok (p, rest) := by
  refine ⟨_, rfl, ?_⟩
  rw [ResourcePackResponse.decode]
  simp only [List.append_assoc]
  rw [readUuid_append p.uuid _ h]
  simp only [except_bind_ok]
  rw [rt_resourcePackResult]
  rfl

/-- Source model: `packet/configuration.rs` `ClientBoundPluginMessage`. -/
structure ClientBoundPluginMessage where
  channel : Bytes
  data : Bytes
  deriving DecidableEq, Repr

def ClientBoundPluginMessage.wf (p : ClientBoundPluginMessage) : Prop :=
  p.channel.length ≤ 32768 ∧ utf8Valid p.channel = true

def ClientBoundPluginMessage.encode (p : ClientBoundPluginMessage) : Except EncodeError Bytes := do
  let ch ← writeString 32768 p.channel
  .ok (ch ++ p.data)

def ClientBoundPluginMessage.decode (s : Bytes) :
    Except DecodeError (ClientBoundPluginMessage × Bytes) := do
  let (ch, s) ← readString 32768 s
  let (d, s) ← readRest s
  .ok (⟨ch, d⟩, s)

theorem ClientBoundPluginMessage_rt (p : ClientBoundPluginMessage) (h : p.wf) :
    ∃ b, ClientBoundPluginMessage.encode p = .ok b ∧
      ClientBoundPluginMessage.decode (b ++ []) = .ok (p, []) := by
  obtain ⟨h1, h2⟩ := h
  have hch := (readString_writeString 32768 p.channel [] h1 (by norm_num) h2).1
  refine ⟨_, by rw [ClientBoundPluginMessage.encode, hch]; rfl, ?_⟩
  rw [ClientBoundPluginMessage.decode]
  simp only [List.append_assoc, List.append_nil]
  rw [rt_string 32768 p.channel _ h1 (by norm_num) h2]
  simp only [except_bind_ok]
  rfl

/-- Source model: `packet/configuration.rs` `ConfigDisconnect`.  The
`Message` chat value lives in the `data/` module (not under `src/`);
modelled from the spec by its JSON text carried as a string. -/
structure ConfigDisconnect where
  reason : Bytes
  deriving DecidableEq, Repr

def ConfigDisconnect.wf (p : ConfigDisconnect) : Prop :=
  p.reason.length ≤ 32768 ∧ utf8Valid p.reason = true

def ConfigDisconnect.encode (p : ConfigDisconnect) : Except EncodeError Bytes :=
  writeString 32768 p.reason

def ConfigDisconnect.decode (s : Bytes) : Except DecodeError (ConfigDisconnect × Bytes) := do
  let (r, s) ← readString 32768 s
  .ok (⟨r⟩, s)

theorem ConfigDisconnect_rt (p : ConfigDisconnect) (h : p.wf) (rest : Bytes) :
    ∃ b, ConfigDisconnect.encode p = .ok b ∧
      ConfigDisconnect.decode (b ++ rest) = .ok (p, rest) := by
  obtain ⟨h1, h2⟩ := h
  have hrt := readString_writeString 32768 p.reason rest h1 (by norm_num) h2
  refine ⟨_, hrt.1, ?_⟩
  rw [ConfigDisconnect.decode, hrt.2]
  rfl

/-- Source model: `packet/configuration.rs` `ClientboundKeepAlive`. -/
structure ClientboundKeepAlive where
  id : Nat
  deriving DecidableEq, Repr

def ClientboundKeepAlive.wf (p : ClientboundKeepAlive) : Prop := p.id < 2 ^ 64

def ClientboundKeepAlive.encode (p : ClientboundKeepAlive) : Except EncodeError Bytes :=
  .ok (writeBE 8 p.id)

def ClientboundKeepAlive.decode (s : Bytes) :
    Except DecodeError (ClientboundKeepAlive × Bytes) := do
  let (v, s) ← readBE 8 s
  .ok (⟨v⟩, s)

theorem ClientboundKeepAlive_rt (p : ClientboundKeepAlive) (h : p.wf) (rest : Bytes) :
    ∃ b, ClientboundKeepAlive.encode p = .ok b ∧
      ClientboundKeepAlive.decode (b ++ rest) = .ok (p, rest) := by
  refine ⟨_, rfl, ?_⟩
  rw [ClientboundKeepAlive.decode, readBE_writeBE 8 p.id
    (by have h2 : p.id < 2 ^ 64 := h; norm_num at h2 ⊢; omega)]
  rfl

/-- Source model: `packet/configuration.rs` `Ping` (`id: u32`). -/
structure Ping where
  id : Nat
  deriving DecidableEq, Repr

def Ping.wf (p : Ping) : Prop := p.id < 2 ^ 32

def Ping.encode (p : Ping) : Except EncodeError Bytes :=
  .ok (writeBE 4 p.id)

def Ping.decode (s : Bytes) : Except DecodeError (Ping × Bytes) := do
  let (v, s) ← readBE 4 s
  .ok (⟨v⟩, s)

theorem Ping_rt (p : Ping) (h : p.wf) (rest : Bytes) :
    ∃ b, Ping.encode p = .ok b ∧ Ping.decode (b ++ rest) = .ok (p, rest) := by
  refine ⟨_, rfl, ?_⟩
  rw [Ping.decode, readBE_writeBE 4 p.id
    (by have h2 : p.id < 2 ^ 32 := h; norm_num at h2 ⊢; omega)]
  rfl

/-- Source model: `packet/configuration.rs` `RegistryData`.  The NBT
tag reader lives in the `nbt` module (not under `src/`); per the spec
it is a black-box decoder of a self-delimited tree, so the tag is
modelled by its wire bytes and the reader is a parameter `nbtDec`
assumed (where needed) to consume exactly the tag. -/
structure RegistryData where
  data : Bytes
  deriving DecidableEq, Repr

def RegistryData.encode (p : RegistryData) : Except EncodeError Bytes :=
  .ok p.data

def RegistryData.decode (nbtDec : Bytes → Except DecodeError (Bytes × Bytes)) (s : Bytes) :
    Except DecodeError (RegistryData × Bytes) := do
  let (d, s) ← nbtDec s
  .ok (⟨d⟩, s)

/-- Source model: `packet/configuration.rs` `RemoveResourcePack`
(optional raw UUID via bool). -/
structure RemoveResourcePack where
  uuid : Option Bytes
  deriving DecidableEq, Repr

def RemoveResourcePack.wf (p : RemoveResourcePack) : Prop :=
  ∀ u, p.uuid = some u → u.length = 16

def RemoveResourcePack.encode (p : RemoveResourcePack) : Except EncodeError Bytes := do
  let u ← boolOptionEncode (fun u => .ok u) p.uuid
  .ok u

def RemoveResourcePack.decode (s : Bytes) :
    Except DecodeError (RemoveResourcePack × Bytes) := do
  let (u, s) ← boolOptionDecode readUuid s
  .ok (⟨u⟩, s)

theorem RemoveResourcePack_rt (p : RemoveResourcePack) (h : p.wf) (rest : Bytes) :
    ∃ b, RemoveResourcePack.encode p = .ok b ∧
      RemoveResourcePack.decode (b ++ rest) = .ok (p, rest) := by
  match hu : p.uuid with
  | none =>
    refine ⟨writeBool false, ?_, ?_⟩
    · rw [RemoveResourcePack.encode, hu, boolOptionEncode]
      rfl
    · rw [RemoveResourcePack.decode, rt_boolOption_none readUuid rest]
      simp only [except_bind_ok]
      rw [← hu]
  | some u =>
    refine ⟨writeBool true ++ u, ?_, ?_⟩
    · rw [RemoveResourcePack.encode, hu, boolOptionEncode]
      rfl
    · rw [RemoveResourcePack.decode,
        rt_boolOption_some readUuid u u rest (readUuid_append u rest (h u hu))]
      simp only [except_bind_ok]
      rw [← hu]

/-- Source model: `packet/configuration.rs` `AddResourcePack` (raw
UUID, url string max 32767, hash string max 40, forced bool, optional
prompt `Message` modelled by its JSON text). -/
structure AddResourcePack where
  uuid : Bytes
  url : Bytes
  hash : Bytes
  forced : Bool
  prompt_message : Option Bytes
  deriving DecidableEq, Repr

def AddResourcePack.wf (p : AddResourcePack) : Prop :=
  p.uuid.length = 16 ∧ p.url.length ≤ 32767 ∧ utf8Valid p.url = true ∧
    p.hash.length ≤ 40 ∧ utf8Valid p.hash = true ∧
    ∀ m, p.prompt_message = some m → m.length ≤ 32768 ∧ utf8Valid m = true

def AddResourcePack.encode (p : AddResourcePack) : Except EncodeError Bytes := do
  let url ← writeString 32767 p.url
  let hash ← writeString 40 p.hash
  let pm ← boolOptionEncode (fun m => writeString 32768 m) p.prompt_message
  .ok (p.uuid ++ (url ++ (hash ++ (writeBool p.forced ++ pm))))

def AddResourcePack.decode (s : Bytes) : Except DecodeError (AddResourcePack × Bytes) := do
  let (u, s) ← readUuid s
  let (url, s) ← readString 32767 s
  let (hash, s) ← readString 40 s
  let (forced, s) ← readBool s
  let (pm, s) ← boolOptionDecode (readString 32768) s
  .ok (⟨u, url, hash, forced, pm⟩, s)

theorem AddResourcePack_rt (p : AddResourcePack) (h : p.wf) (rest : Bytes) :
    ∃ b, AddResourcePack.encode p = .ok b ∧
      AddResourcePack.decode (b ++ rest) = .ok (p, rest) := by
  obtain ⟨h1, h2, h3, h4, h5, h6⟩ := h
  have hurl := (readString_writeString 32767 p.url [] h2 (by norm_num) h3).1
  have hhash := (readString_writeString 40 p.hash [] h4 (by norm_num) h5).1
  match hpm : p.prompt_message with
  | none =>
    refine ⟨_, by rw [AddResourcePack.encode, hurl, hhash, hpm, boolOptionEncode]; rfl, ?_⟩
    rw [AddResourcePack.decode]
    simp only [List.append_assoc]
    rw [readUuid_append p.uuid _ h1]
    simp only [except_bind_ok]
    rw [rt_string 32767 p.url _ h2 (by norm_num) h3]
    simp only [except_bind_ok]
    rw [rt_string 40 p.hash _ h4 (by norm_num) h5]
    simp only [except_bind_ok]
    rw [readBool_writeBool]
    simp only [except_bind_ok]
    rw [rt_boolOption_none (readString 32768) rest]
    simp only [except_bind_ok]
    rw [← hpm]
  | some m =>
    obtain ⟨hm1, hm2⟩ := h6 m hpm
    have hmw := (readString_writeString 32768 m [] hm1 (by norm_num) hm2).1
    refine ⟨_, by rw [AddResourcePack.encode, hurl, hhash, hpm, boolOptionEncode, hmw]; rfl, ?_⟩
    rw [AddResourcePack.decode]
    simp only [List.append_assoc]
    rw [readUuid_append p.uuid _ h1]
    simp only [except_bind_ok]
    rw [rt_string 32767 p.url _ h2 (by norm_num) h3]
    simp only [except_bind_ok]
    rw [rt_string 40 p.hash _ h4 (by norm_num) h5]
    simp only [except_bind_ok]
    rw [readBool_writeBool]
    simp only [except_bind_ok]
    rw [show writeBool true ++ (writeVarI32 (natAsI32 m.length) ++ (m ++ rest))
        = (writeBool true ++ (writeVarI32 (natAsI32 m.length) ++ m)) ++ rest by
      simp [List.append_assoc]]
    rw [rt_boolOption_some (readString 32768) m _ rest
      (by rw [List.append_assoc]; exact rt_string 32768 m rest hm1 (by norm_num) hm2)]
    simp only [except_bind_ok]
    rw [← hpm]

/-- Source model: `packet/configuration.rs` `FeatureFlags` (raw rest
bytes, not further decoded). -/
structure FeatureFlags where
  feature_flags : Bytes
  deriving DecidableEq, Repr

def FeatureFlags.encode (p : FeatureFlags) : Except EncodeError Bytes :=
  .ok p.feature_flags

def FeatureFlags.decode (s : Bytes) : Except DecodeError (FeatureFlags × Bytes) := do
  let (d, s) ← readRest s
  .ok (⟨d⟩, s)

theorem FeatureFlags_rt (p : FeatureFlags) :
    FeatureFlags.encode p = .ok p.feature_flags ∧
      FeatureFlags.decode (p.feature_flags ++ []) = .ok (p, []) := by
  refine ⟨rfl, ?_⟩
  rw [List.append_nil]
  rfl

/-- Source model: `packet/configuration.rs` `UpdateTags` (raw rest
bytes, not further decoded). -/
structure UpdateTags where
  tags : Bytes
  deriving DecidableEq, Repr

def UpdateTags.encode (p : UpdateTags) : Except EncodeError Bytes :=
  .ok p.tags

def UpdateTags.decode (s : Bytes) : Except DecodeError (UpdateTags × Bytes) := do
  let (d, s) ← readRest s
  .ok (⟨d⟩, s)

theorem UpdateTags_rt (p : UpdateTags) :
    UpdateTags.encode p = .ok p.tags ∧ UpdateTags.decode (p.tags ++ []) = .ok (p, []) := by
  refine ⟨rfl, ?_⟩
  rw [List.append_nil]
  rfl

end MCProxy

namespace MCProxy

/-- Source model: `packet/configuration.rs` `ConfigServerBoundPacket`. -/
inductive ConfigServerBoundPacket where
  | clientInformation (p : ClientInformation)
  | serverBoundPluginMessage (p : ServerBoundPluginMessage)
  | acknowledgeFinishConfiguration
  | serverBoundKeepAlive (p : ServerBoundKeepAlive)
  | pong (p : Pong)
  | resourcePackResponse (p : ResourcePackResponse)
  deriving DecidableEq, Repr

def ConfigServerBoundPacket.typeId : ConfigServerBoundPacket → Nat
  | .clientInformation _ => 0x00
  | .serverBoundPluginMessage _ => 0x01
  | .acknowledgeFinishConfiguration => 0x02
  | .serverBoundKeepAlive _ => 0x03
  | .pong _ => 0x04
  | .resourcePackResponse _ => 0x05

def ConfigServerBoundPacket.encodeBody : ConfigServerBoundPacket → Except EncodeError Bytes
  | .clientInformation p => p.encode
  | .serverBoundPluginMessage p => p.encode
  | .acknowledgeFinishConfiguration => .ok []
  | .serverBoundKeepAlive p => p.encode
  | .pong p => p.encode
  | .resourcePackResponse p => p.encode

def ConfigServerBoundPacket.decodeBody (typeId : Nat) (s : Bytes) :
    Except DecodeError (ConfigServerBoundPacket × Bytes) :=
  if typeId = 0x00 then (ClientInformation.decode s).map fun q => (.clientInformation q.1, q.2)
  else if typeId = 0x01 then
    (ServerBoundPluginMessage.decode s).map fun q => (.serverBoundPluginMessage q.1, q.2)
  else if typeId = 0x02 then .ok (.acknowledgeFinishConfiguration, s)
  else if typeId = 0x03 then
    (ServerBoundKeepAlive.decode s).map fun q => (.serverBoundKeepAlive q.1, q.2)
  else if typeId = 0x04 then (Pong.decode s).map fun q => (.pong q.1, q.2)
  else if typeId = 0x05 then
    (ResourcePackResponse.decode s).map fun q => (.resourcePackResponse q.1, q.2)
  else .error (.unknownPacketType typeId)

def ConfigServerBoundPacket.encode (p : ConfigServerBoundPacket) : Except EncodeError Bytes :=
  enumEncode p.typeId p.encodeBody

def ConfigServerBoundPacket.decode (s : Bytes) :
    Except DecodeError (ConfigServerBoundPacket × Bytes) :=
  enumDecode ConfigServerBoundPacket.decodeBody s

def ConfigServerBoundPacket.wf : ConfigServerBoundPacket → Prop
  | .clientInformation p => p.wf
  | .serverBoundPluginMessage p => p.wf
  | .acknowledgeFinishConfiguration => True
  | .serverBoundKeepAlive p => p.wf
  | .pong p => p.wf
  | .resourcePackResponse p => p.wf

theorem ConfigServerBoundPacket_rt (p : ConfigServerBoundPacket) (h : p.wf) :
    ∃ b, ConfigServerBoundPacket.encode p = .ok b ∧
      ConfigServerBoundPacket.decode b = .ok (p, []) := by
  cases p with
  | clientInformation q =>
    obtain ⟨b, hb1, hb2⟩ := ClientInformation_rt q h []
    refine ⟨writeVarI32 ((0 : Nat) : Int) ++ b, ?_, ?_⟩
    · rw [ConfigServerBoundPacket.encode, ConfigServerBoundPacket.typeId,
        ConfigServerBoundPacket.encodeBody, hb1, enumEncode_ok]
    · rw [ConfigServerBoundPacket.decode]
      apply enumDecode_encode _ 0 (by norm_num)
      rw [ConfigServerBoundPacket.decodeBody]
      norm_num
      rw [List.append_nil] at hb2
      rw [hb2]
      rfl
  | serverBoundPluginMessage q =>
    obtain ⟨b, hb1, hb2⟩ := ServerBoundPluginMessage_rt q h
    refine ⟨writeVarI32 ((1 : Nat) : Int) ++ b, ?_, ?_⟩
    · rw [ConfigServerBoundPacket.encode, ConfigServerBoundPacket.typeId,
        ConfigServerBoundPacket.encodeBody, hb1, enumEncode_ok]
    · rw [ConfigServerBoundPacket.decode]
      apply enumDecode_encode _ 1 (by norm_num)
      rw [ConfigServerBoundPacket.decodeBody]
      norm_num
      rw [List.append_nil] at hb2
      rw [hb2]
      rfl
  | acknowledgeFinishConfiguration =>
    refine ⟨writeVarI32 ((2 : Nat) : Int) ++ [], rfl, ?_⟩
    rw [ConfigServerBoundPacket.decode]
    apply enumDecode_encode _ 2 (by norm_num)
    rw [ConfigServerBoundPacket.decodeBody]
    norm_num
  | serverBoundKeepAlive q =>
    obtain ⟨b, hb1, hb2⟩ := ServerBoundKeepAlive_rt q h []
    refine ⟨writeVarI32 ((3 : Nat) : Int) ++ b, ?_, ?_⟩
    · rw [ConfigServerBoundPacket.encode, ConfigServerBoundPacket.typeId,
        ConfigServerBoundPacket.encodeBody, hb1, enumEncode_ok]
    · rw [ConfigServerBoundPacket.decode]
      apply enumDecode_encode _ 3 (by norm_num)
      rw [ConfigServerBoundPacket.decodeBody]
      norm_num
      rw [List.append_nil] at hb2
      rw [hb2]
      rfl
  | pong q =>
    obtain ⟨b, hb1, hb2⟩ := Pong_rt q h []
    refine ⟨writeVarI32 ((4 : Nat) : Int) ++ b, ?_, ?_⟩
    · rw [ConfigServerBoundPacket.encode, ConfigServerBoundPacket.typeId,
        ConfigServerBoundPacket.encodeBody, hb1, enumEncode_ok]
    · rw [ConfigServerBoundPacket.decode]
      apply enumDecode_encode _ 4 (by norm_num)
      rw [ConfigServerBoundPacket.decodeBody]
      norm_num
      rw [List.append_nil] at hb2
      rw [hb2]
      rfl
  | resourcePackResponse q =>
    obtain ⟨b, hb1, hb2⟩ := ResourcePackResponse_rt q h []
    refine ⟨writeVarI32 ((5 : Nat) : Int) ++ b, ?_, ?_⟩
    · rw [ConfigServerBoundPacket.encode, ConfigServerBoundPacket.typeId,
        ConfigServerBoundPacket.encodeBody, hb1, enumEncode_ok]
    · rw [ConfigServerBoundPacket.decode]
      apply enumDecode_encode _ 5 (by norm_num)
      rw [ConfigServerBoundPacket.decodeBody]
      norm_num
      rw [List.append_nil] at hb2
      rw [hb2]
      rfl

end MCProxy

namespace MCProxy

/-- Source model: `packet/configuration.rs` `ConfigClientBoundPaket`
(name as in the source).  Decoding threads the black-box NBT reader
`nbtDec` for `RegistryData`. -/
inductive ConfigClientBoundPaket where
  | clientBoundPluginMessage (p : ClientBoundPluginMessage)
  | configDisconnect (p : ConfigDisconnect)
  | finishConfiguration
  | clientboundKeepAlive (p : ClientboundKeepAlive)
  | ping (p : Ping)
  | registryData (p : RegistryData)
  | removeResourcePack (p : RemoveResourcePack)
  | addResourcePack (p : AddResourcePack)
  | featureFlags (p : FeatureFlags)
  | updateTags (p : UpdateTags)
  deriving DecidableEq, Repr

def ConfigClientBoundPaket.typeId : ConfigClientBoundPaket → Nat
  | .clientBoundPluginMessage _ => 0x00
  | .configDisconnect _ => 0x01
  | .finishConfiguration => 0x02
  | .clientboundKeepAlive _ => 0x03
  | .ping _ => 0x04
  | .registryData _ => 0x05
  | .removeResourcePack _ => 0x06
  | .addResourcePack _ => 0x07
  | .featureFlags _ => 0x08
  | .updateTags _ => 0x09

def ConfigClientBoundPaket.encodeBody : ConfigClientBoundPaket → Except EncodeError Bytes
  | .clientBoundPluginMessage p => p.encode
  | .configDisconnect p => p.encode
  | .finishConfiguration => .ok []
  | .clientboundKeepAlive p => p.encode
  | .ping p => p.encode
  | .registryData p => p.encode
  | .removeResourcePack p => p.encode
  | .addResourcePack p => p.encode
  | .featureFlags p => p.encode
  | .updateTags p => p.encode

def ConfigClientBoundPaket.decodeBody (nbtDec : Bytes → Except DecodeError (Bytes × Bytes))
    (typeId : Nat) (s : Bytes) : Except DecodeError (ConfigClientBoundPaket × Bytes) :=
  if typeId = 0x00 then
    (ClientBoundPluginMessage.decode s).map fun q => (.clientBoundPluginMessage q.1, q.2)
  else if typeId = 0x01 then (ConfigDisconnect.decode s).map fun q => (.configDisconnect q.1, q.2)
  else if typeId = 0x02 then .ok (.finishConfiguration, s)
  else if typeId = 0x03 then
    (ClientboundKeepAlive.decode s).map fun q => (.clientboundKeepAlive q.1, q.2)
  else if typeId = 0x04 then (Ping.decode s).map fun q => (.ping q.1, q.2)
  else if typeId = 0x05 then (RegistryData.decode nbtDec s).map fun q => (.registryData q.1, q.2)
  else if typeId = 0x06 then
    (RemoveResourcePack.decode s).map fun q => (.removeResourcePack q.1, q.2)
  else if typeId = 0x07 then (AddResourcePack.decode s).map fun q => (.addResourcePack q.1, q.2)
  else if typeId = 0x08 then (FeatureFlags.decode s).map fun q => (.featureFlags q.1, q.2)
  else if typeId = 0x09 then (UpdateTags.decode s).map fun q => (.updateTags q.1, q.2)
  else .error (.unknownPacketType typeId)

def ConfigClientBoundPaket.encode (p : ConfigClientBoundPaket) : Except EncodeError Bytes :=
  enumEncode p.typeId p.encodeBody

def ConfigClientBoundPaket.decode (nbtDec : Bytes → Except DecodeError (Bytes × Bytes))
    (s : Bytes) : Except DecodeError (ConfigClientBoundPaket × Bytes) :=
  enumDecode (ConfigClientBoundPaket.decodeBody nbtDec) s

/-- Well-formedness relative to the NBT reader: for `RegistryData` the
black-box reader must consume exactly the tag bytes (the spec's
self-delimited-tree contract). -/
def ConfigClientBoundPaket.wfWith (nbtDec : Bytes → Except DecodeError (Bytes × Bytes)) :
    ConfigClientBoundPaket → Prop
  | .clientBoundPluginMessage p => p.wf
  | .configDisconnect p => p.wf
  | .finishConfiguration => True
  | .clientboundKeepAlive p => p.wf
  | .ping p => p.wf
  | .registryData p => ∀ rest, nbtDec (p.data ++ rest) = .ok (p.data, rest)
  | .removeResourcePack p => p.wf
  | .addResourcePack p => p.wf
  | .featureFlags _ => True
  | .updateTags _ => True

theorem ConfigClientBoundPaket_rt (nbtDec : Bytes → Except DecodeError (Bytes × Bytes))
    (p : ConfigClientBoundPaket) (h : ConfigClientBoundPaket.wfWith nbtDec p) :
    ∃ b, ConfigClientBoundPaket.encode p = .ok b ∧
      ConfigClientBoundPaket.decode nbtDec b = .ok (p, []) := by
  cases p with
  | clientBoundPluginMessage q =>
    obtain ⟨b, hb1, hb2⟩ := ClientBoundPluginMessage_rt q h
    refine ⟨writeVarI32 ((0 : Nat) : Int) ++ b, ?_, ?_⟩
    · rw [ConfigClientBoundPaket.encode, ConfigClientBoundPaket.typeId,
        ConfigClientBoundPaket.encodeBody, hb1, enumEncode_ok]
    · rw [ConfigClientBoundPaket.decode]
      apply enumDecode_encode _ 0 (by norm_num)
      rw [ConfigClientBoundPaket.decodeBody]
      norm_num
      rw [List.append_nil] at hb2
      rw [hb2]
      rfl
  | configDisconnect q =>
    obtain ⟨b, hb1, hb2⟩ := ConfigDisconnect_rt q h []
    refine ⟨writeVarI32 ((1 : Nat) : Int) ++ b, ?_, ?_⟩
    · rw [ConfigClientBoundPaket.encode, ConfigClientBoundPaket.typeId,
        ConfigClientBoundPaket.encodeBody, hb1, enumEncode_ok]
    · rw [ConfigClientBoundPaket.decode]
      apply enumDecode_encode _ 1 (by norm_num)
      rw [ConfigClientBoundPaket.decodeBody]
      norm_num
      rw [List.append_nil] at hb2
      rw [hb2]
      rfl
  | finishConfiguration =>
    refine ⟨writeVarI32 ((2 : Nat) : Int) ++ [], rfl, ?_⟩
    rw [ConfigClientBoundPaket.decode]
    apply enumDecode_encode _ 2 (by norm_num)
    rw [ConfigClientBoundPaket.decodeBody]
    norm_num
  | clientboundKeepAlive q =>
    obtain ⟨b, hb1, hb2⟩ := ClientboundKeepAlive_rt q h []
    refine ⟨writeVarI32 ((3 : Nat) : Int) ++ b, ?_, ?_⟩
    · rw [ConfigClientBoundPaket.encode, ConfigClientBoundPaket.typeId,
        ConfigClientBoundPaket.encodeBody, hb1, enumEncode_ok]
    · rw [ConfigClientBoundPaket.decode]
      apply enumDecode_encode _ 3 (by norm_num)
      rw [ConfigClientBoundPaket.decodeBody]
      norm_num
      rw [List.append_nil] at hb2
      rw [hb2]
      rfl
  | ping q =>
    obtain ⟨b, hb1, hb2⟩ := Ping_rt q h []
    refine ⟨writeVarI32 ((4 : Nat) : Int) ++ b, ?_, ?_⟩
    · rw [ConfigClientBoundPaket.encode, ConfigClientBoundPaket.typeId,
        ConfigClientBoundPaket.encodeBody, hb1, enumEncode_ok]
    · rw [ConfigClientBoundPaket.decode]
      apply enumDecode_encode _ 4 (by norm_num)
      rw [ConfigClientBoundPaket.decodeBody]
      norm_num
      rw [List.append_nil] at hb2
      rw [hb2]
      rfl
  | registryData q =>
    refine ⟨writeVarI32 ((5 : Nat) : Int) ++ q.data, rfl, ?_⟩
    rw [ConfigClientBoundPaket.decode]
    apply enumDecode_encode _ 5 (by norm_num)
    rw [ConfigClientBoundPaket.decodeBody]
    norm_num
    have hq := h []
    rw [List.append_nil] at hq
    rw [RegistryData.decode, hq]
    rfl
  | removeResourcePack q =>
    obtain ⟨b, hb1, hb2⟩ := RemoveResourcePack_rt q h []
    refine ⟨writeVarI32 ((6 : Nat) : Int) ++ b, ?_, ?_⟩
    · rw [ConfigClientBoundPaket.encode, ConfigClientBoundPaket.typeId,
        ConfigClientBoundPaket.encodeBody, hb1, enumEncode_ok]
    · rw [ConfigClientBoundPaket.decode]
      apply enumDecode_encode _ 6 (by norm_num)
      rw [ConfigClientBoundPaket.decodeBody]
      norm_num
      rw [List.append_nil] at hb2
      rw [hb2]
      rfl
  | addResourcePack q =>
    obtain ⟨b, hb1, hb2⟩ := AddResourcePack_rt q h []
    refine ⟨writeVarI32 ((7 : Nat) : Int) ++ b, ?_, ?_⟩
    · rw [ConfigClientBoundPaket.encode, ConfigClientBoundPaket.typeId,
        ConfigClientBoundPaket.encodeBody, hb1, enumEncode_ok]
    · rw [ConfigClientBoundPaket.decode]
      apply enumDecode_encode _ 7 (by norm_num)
      rw [ConfigClientBoundPaket.decodeBody]
      norm_num
      rw [List.append_nil] at hb2
      rw [hb2]
      rfl
  | featureFlags q =>
    obtain ⟨hb1, hb2⟩ := FeatureFlags_rt q
    refine ⟨writeVarI32 ((8 : Nat) : Int) ++ q.feature_flags, rfl, ?_⟩
    rw [ConfigClientBoundPaket.decode]
    apply enumDecode_encode _ 8 (by norm_num)
    rw [ConfigClientBoundPaket.decodeBody]
    norm_num
    rw [List.append_nil] at hb2
    rw [hb2]
    rfl
  | updateTags q =>
    obtain ⟨hb1, hb2⟩ := UpdateTags_rt q
    refine ⟨writeVarI32 ((9 : Nat) : Int) ++ q.tags, rfl, ?_⟩
    rw [ConfigClientBoundPaket.decode]
    apply enumDecode_encode _ 9 (by norm_num)
    rw [ConfigClientBoundPaket.decodeBody]
    norm_num
    rw [List.append_nil] at hb2
    rw [hb2]
    rfl

end MCProxy

namespace MCProxy

/-- Source model: `packet/game.rs` `PlayPluginMessage` (channel
string, rest data). -/
structure PlayPluginMessage where
  channel : Bytes
  data : Bytes
  deriving DecidableEq, Repr

def PlayPluginMessage.wf (p : PlayPluginMessage) : Prop :=
  p.channel.length ≤ 32768 ∧ utf8Valid p.channel = true

def PlayPluginMessage.encode (p : PlayPluginMessage) : Except EncodeError Bytes := do
  let ch ← writeString 32768 p.channel
  .ok (ch ++ p.data)

def PlayPluginMessage.decode (s : Bytes) : Except DecodeError (PlayPluginMessage × Bytes) := do
  let (ch, s) ← readString 32768 s
  let (d, s) ← readRest s
  .ok (⟨ch, d⟩, s)

theorem PlayPluginMessage_rt (p : PlayPluginMessage) (h : p.wf) :
    ∃ b, PlayPluginMessage.encode p = .ok b ∧
      PlayPluginMessage.decode (b ++ []) = .ok (p, []) := by
  obtain ⟨h1, h2⟩ := h
  have hch := (readString_writeString 32768 p.channel [] h1 (by norm_num) h2).1
  refine ⟨_, by rw [PlayPluginMessage.encode, hch]; rfl, ?_⟩
  rw [PlayPluginMessage.decode]
  simp only [List.append_assoc, List.append_nil]
  rw [rt_string 32768 p.channel _ h1 (by norm_num) h2]
  simp only [except_bind_ok]
  rfl

/-- Source model: `packet/game.rs` `GameServerBoundPacket`: `0x10`
decodes the plugin message, every other id becomes `Other{type_id}`
with the body left unread; `Other` encodes an empty body. -/
inductive GameServerBoundPacket where
  | other (typeId : Nat)
  | serverBoundPluginMessage (p : PlayPluginMessage)
  deriving DecidableEq, Repr

def GameServerBoundPacket.typeId : GameServerBoundPacket → Nat
  | .serverBoundPluginMessage _ => 0x10
  | .other t => t

def GameServerBoundPacket.encodeBody : GameServerBoundPacket → Except EncodeError Bytes
  | .other _ => .ok []
  | .serverBoundPluginMessage p => p.encode

def GameServerBoundPacket.decodeBody (typeId : Nat) (s : Bytes) :
    Except DecodeError (GameServerBoundPacket × Bytes) :=
  if typeId = 0x10 then
    (PlayPluginMessage.decode s).map fun q => (.serverBoundPluginMessage q.1, q.2)
  else .ok (.other typeId, s)

def GameServerBoundPacket.encode (p : GameServerBoundPacket) : Except EncodeError Bytes :=
  enumEncode p.typeId p.encodeBody

def GameServerBoundPacket.decode (s : Bytes) :
    Except DecodeError (GameServerBoundPacket × Bytes) :=
  enumDecode GameServerBoundPacket.decodeBody s

/-- Well-formedness: an `Other` id must be a `u8` and must not collide
with the decoded plugin-message id `0x10` (the colliding value breaks
the round trip, see the C2 counterexample). -/
def GameServerBoundPacket.wf : GameServerBoundPacket → Prop
  | .other t => t < 256 ∧ t ≠ 0x10
  | .serverBoundPluginMessage p => p.wf

theorem GameServerBoundPacket_rt (p : GameServerBoundPacket) (h : p.wf) :
    ∃ b, GameServerBoundPacket.encode p = .ok b ∧
      GameServerBoundPacket.decode b = .ok (p, []) := by
  cases p with
  | other t =>
    obtain ⟨h1, h2⟩ := h
    refine ⟨writeVarI32 ((t : Nat) : Int) ++ [], rfl, ?_⟩
    rw [GameServerBoundPacket.decode]
    apply enumDecode_encode _ t h1
    rw [GameServerBoundPacket.decodeBody, if_neg h2]
  | serverBoundPluginMessage q =>
    obtain ⟨b, hb1, hb2⟩ := PlayPluginMessage_rt q h
    refine ⟨writeVarI32 ((0x10 : Nat) : Int) ++ b, ?_, ?_⟩
    · rw [GameServerBoundPacket.encode, GameServerBoundPacket.typeId,
        GameServerBoundPacket.encodeBody, hb1, enumEncode_ok]
    · rw [GameServerBoundPacket.decode]
      apply enumDecode_encode _ 0x10 (by norm_num)
      rw [GameServerBoundPacket.decodeBody]
      norm_num
      rw [List.append_nil] at hb2
      rw [hb2]
      rfl

/-- Source model: `packet/game.rs` `GameClientBoundPacket`: `0x18`
decodes the plugin message, every other id becomes `Other{type_id}`. -/
inductive GameClientBoundPacket where
  | other (typeId : Nat)
  | clientBoundPluginMessage (p : PlayPluginMessage)
  deriving DecidableEq, Repr

def GameClientBoundPacket.typeId : GameClientBoundPacket → Nat
  | .other t => t
  | .clientBoundPluginMessage _ => 0x18

def GameClientBoundPacket.encodeBody : GameClientBoundPacket → Except EncodeError Bytes
  | .other _ => .ok []
  | .clientBoundPluginMessage p => p.encode

def GameClientBoundPacket.decodeBody (typeId : Nat) (s : Bytes) :
    Except DecodeError (GameClientBoundPacket × Bytes) :=
  if typeId = 0x18 then
    (PlayPluginMessage.decode s).map fun q => (.clientBoundPluginMessage q.1, q.2)
  else .ok (.other typeId, s)

def GameClientBoundPacket.encode (p : GameClientBoundPacket) : Except EncodeError Bytes :=
  enumEncode p.typeId p.encodeBody

def GameClientBoundPacket.decode (s : Bytes) :
    Except DecodeError (GameClientBoundPacket × Bytes) :=
  enumDecode GameClientBoundPacket.decodeBody s

def GameClientBoundPacket.wf : GameClientBoundPacket → Prop
  | .other t => t < 256 ∧ t ≠ 0x18
  | .clientBoundPluginMessage p => p.wf

theorem GameClientBoundPacket_rt (p : GameClientBoundPacket) (h : p.wf) :
    ∃ b, GameClientBoundPacket.encode p = .ok b ∧
      GameClientBoundPacket.decode b = .ok (p, []) := by
  cases p with
  | other t =>
    obtain ⟨h1, h2⟩ := h
    refine ⟨writeVarI32 ((t : Nat) : Int) ++ [], rfl, ?_⟩
    rw [GameClientBoundPacket.decode]
    apply enumDecode_encode _ t h1
    rw [GameClientBoundPacket.decodeBody, if_neg h2]
  | clientBoundPluginMessage q =>
    obtain ⟨b, hb1, hb2⟩ := PlayPluginMessage_rt q h
    refine ⟨writeVarI32 ((0x18 : Nat) : Int) ++ b, ?_, ?_⟩
    · rw [GameClientBoundPacket.encode, GameClientBoundPacket.typeId,
        GameClientBoundPacket.encodeBody, hb1, enumEncode_ok]
    · rw [GameClientBoundPacket.decode]
      apply enumDecode_encode _ 0x18 (by norm_num)
      rw [GameClientBoundPacket.decodeBody]
      norm_num
      rw [List.append_nil] at hb2
      rw [hb2]
      rfl

end MCProxy

namespace MCProxy

/-- Every packet of the catalog, tagged by its dispatch table
(direction × state), as §4.D lays the tables out. -/
inductive CatalogPacket where
  | handshakeSB (p : HandshakeServerBoundPacket)
  | statusSB (p : StatusServerBoundPacket)
  | statusCB (p : StatusClientBoundPacket)
  | loginSB (p : LoginServerBoundPacket)
  | loginCB (p : LoginClientBoundPacket)
  | configSB (p : ConfigServerBoundPacket)
  | configCB (p : ConfigClientBoundPaket)
  | gameSB (p : GameServerBoundPacket)
  | gameCB (p : GameClientBoundPacket)
  deriving DecidableEq, Repr

inductive PacketFamily where
  | handshakeSB
  | statusSB
  | statusCB
  | loginSB
  | loginCB
  | configSB
  | configCB
  | gameSB
  | gameCB
  deriving DecidableEq, Repr

def CatalogPacket.family : CatalogPacket → PacketFamily
  | .handshakeSB _ => .handshakeSB
  | .statusSB _ => .statusSB
  | .statusCB _ => .statusCB
  | .loginSB _ => .loginSB
  | .loginCB _ => .loginCB
  | .configSB _ => .configSB
  | .configCB _ => .configCB
  | .gameSB _ => .gameSB
  | .gameCB _ => .gameCB

def CatalogPacket.encode : CatalogPacket → Except EncodeError Bytes
  | .handshakeSB p => p.encode
  | .statusSB p => p.encode
  | .statusCB p => p.encode
  | .loginSB p => p.encode
  | .loginCB p => p.encode
  | .configSB p => p.encode
  | .configCB p => p.encode
  | .gameSB p => p.encode
  | .gameCB p => p.encode

def PacketFamily.decode (nbtDec : Bytes → Except DecodeError (Bytes × Bytes)) :
    PacketFamily → Bytes → Except DecodeError (CatalogPacket × Bytes)
  | .handshakeSB => fun s =>
    (HandshakeServerBoundPacket.decode s).map fun q => (.handshakeSB q.1, q.2)
  | .statusSB => fun s => (StatusServerBoundPacket.decode s).map fun q => (.statusSB q.1, q.2)
  | .statusCB => fun s => (StatusClientBoundPacket.decode s).map fun q => (.statusCB q.1, q.2)
  | .loginSB => fun s => (LoginServerBoundPacket.decode s).map fun q => (.loginSB q.1, q.2)
  | .loginCB => fun s => (LoginClientBoundPacket.decode s).map fun q => (.loginCB q.1, q.2)
  | .configSB => fun s => (ConfigServerBoundPacket.decode s).map fun q => (.configSB q.1, q.2)
  | .configCB => fun s =>
    (ConfigClientBoundPaket.decode nbtDec s).map fun q => (.configCB q.1, q.2)
  | .gameSB => fun s => (GameServerBoundPacket.decode s).map fun q => (.gameSB q.1, q.2)
  | .gameCB => fun s => (GameClientBoundPacket.decode s).map fun q => (.gameCB q.1, q.2)

def CatalogPacket.wfWith (nbtDec : Bytes → Except DecodeError (Bytes × Bytes)) :
    CatalogPacket → Prop
  | .handshakeSB p => p.wf
  | .statusSB p => p.wf
  | .statusCB p => p.wf
  | .loginSB p => p.wf
  | .loginCB p => p.wf
  | .configSB p => p.wf
  | .configCB p => ConfigClientBoundPaket.wfWith nbtDec p
  | .gameSB p => p.wf
  | .gameCB p => p.wf

theorem CatalogPacket_rt (nbtDec : Bytes → Except DecodeError (Bytes × Bytes))
    (P : CatalogPacket) (h : CatalogPacket.wfWith nbtDec P) :
    ∃ b, CatalogPacket.encode P = .ok b ∧
      PacketFamily.decode nbtDec P.family b = .ok (P, []) := by
  cases P with
  | handshakeSB p =>
    obtain ⟨b, h1, h2⟩ := HandshakeServerBoundPacket_rt p h
    exact ⟨b, h1, by simp only [CatalogPacket.family, PacketFamily.decode]; rw [h2]; rfl⟩
  | statusSB p =>
    obtain ⟨b, h1, h2⟩ := StatusServerBoundPacket_rt p h
    exact ⟨b, h1, by simp only [CatalogPacket.family, PacketFamily.decode]; rw [h2]; rfl⟩
  | statusCB p =>
    obtain ⟨b, h1, h2⟩ := StatusClientBoundPacket_rt p h
    exact ⟨b, h1, by simp only [CatalogPacket.family, PacketFamily.decode]; rw [h2]; rfl⟩
  | loginSB p =>
    obtain ⟨b, h1, h2⟩ := LoginServerBoundPacket_rt p h
    exact ⟨b, h1, by simp only [CatalogPacket.family, PacketFamily.decode]; rw [h2]; rfl⟩
  | loginCB p =>
    obtain ⟨b, h1, h2⟩ := LoginClientBoundPacket_rt p h
    exact ⟨b, h1, by simp only [CatalogPacket.family, PacketFamily.decode]; rw [h2]; rfl⟩
  | configSB p =>
    obtain ⟨b, h1, h2⟩ := ConfigServerBoundPacket_rt p h
    exact ⟨b, h1, by simp only [CatalogPacket.family, PacketFamily.decode]; rw [h2]; rfl⟩
  | configCB p =>
    obtain ⟨b, h1, h2⟩ := ConfigClientBoundPaket_rt nbtDec p h
    exact ⟨b, h1, by simp only [CatalogPacket.family, PacketFamily.decode]; rw [h2]; rfl⟩
  | gameSB p =>
    obtain ⟨b, h1, h2⟩ := GameServerBoundPacket_rt p h
    exact ⟨b, h1, by simp only [CatalogPacket.family, PacketFamily.decode]; rw [h2]; rfl⟩
  | gameCB p =>
    obtain ⟨b, h1, h2⟩ := GameClientBoundPacket_rt p h
    exact ⟨b, h1, by simp only [CatalogPacket.family, PacketFamily.decode]; rw [h2]; rfl⟩

/-- Uncompressed, unencrypted framing round-trip of `MinecraftCodec`
for an arbitrary body whose decode succeeds. -/
theorem codec_roundtrip_frame {α : Type _} (deflate : Bytes → Bytes)
    (encrypt decrypt : Bytes → Bytes → Bytes) (inflate : Bytes → Except DecodeError Bytes)
    (dec : Bytes → Except DecodeError (α × Bytes)) (body : Bytes) (p : α) (r : Bytes)
    (hlen : body.length < 2 ^ 31) (hdec : dec body = .ok (p, r)) :
    MinecraftCodec.encode deflate encrypt (.ok body) [] MinecraftCodec.new
        = .ok (writeVarI32 (natAsI32 body.length) ++ body, MinecraftCodec.new) ∧
      MinecraftCodec.nextPacket dec inflate
          (MinecraftCodec.accept decrypt (writeVarI32 (natAsI32 body.length) ++ body)
            MinecraftCodec.new)
        = (.ok (some p), MinecraftCodec.new) := by
  constructor
  · rfl
  · set pfx := writeVarI32 (natAsI32 body.length) with hpfx
    have haccept : MinecraftCodec.accept decrypt (pfx ++ body) MinecraftCodec.new
        = ⟨none, none, pfx ++ body, [], []⟩ := rfl
    rw [haccept]
    have hread : readVarI32 (pfx ++ body) = .ok ((body.length : Int), body) :=
      readVarI32_nat body.length hlen body
    have hlfl : (pfx ++ body).length - body.length = pfx.length := by
      simp [List.length_append]
    have husize : usizeOfI32 ((body.length : Int)) = body.length :=
      usizeOfI32_ofNat body.length hlen
    have hslice : ((pfx ++ body).drop pfx.length).take body.length = body := by
      rw [List.drop_left, List.take_length]
    have hdrop : (pfx ++ body).drop (body.length + pfx.length) = [] := by
      apply List.drop_eq_nil_of_le
      simp [List.length_append]
      omega
    simp only [MinecraftCodec.nextPacket, hread, hlfl, husize, hslice, hdrop,
      List.length_append, Nat.add_sub_cancel, Option.isSome_none, Bool.false_eq_true,
      if_false, ite_false, hdec]
    rw [if_pos (by omega)]
    rfl

/-- C2 counterexample: the catalog packet
`GameServerBoundPacket::Other{type_id: 0x10}` encodes fine (empty body,
frame `[0x01, 0x10]`), but feeding the produced bytes back through
`accept` and `next_packet` does not yield the packet: the decoder maps
id `0x10` to `PlayPluginMessage` and fails with an IO `UnexpectedEof`
reading a channel string from the empty body. -/
theorem roundtrip_game_other_collision :
    MinecraftCodec.encode (fun z => z) (fun _ o => o)
        (CatalogPacket.encode (.gameSB (.other 0x10))) [] MinecraftCodec.new
      = .ok ([1, 16], MinecraftCodec.new) ∧
      MinecraftCodec.nextPacket
          (PacketFamily.decode (fun s => .ok ([], s)) PacketFamily.gameSB) (fun z => .ok z)
          (MinecraftCodec.accept (fun _ b => b) [1, 16] MinecraftCodec.new)
        = (.error .ioUnexpectedEof, ⟨none, none, [1, 16], [], []⟩) := by
  have w16 : writeVarI32 ((16 : Nat) : Int) = [16] := by
    rw [writeVarI32, (by norm_num : ((16 : Nat) : Int) = (16 : Int)),
      (by decide : toUnsigned 32 (16 : Int) = 16), encodeVarLoop]
    norm_num
  have w1 : writeVarI32 (natAsI32 1) = [1] := by
    rw [writeVarI32, (by decide : toUnsigned 32 (natAsI32 1) = 1), encodeVarLoop]
    norm_num
  constructor
  · have henc : CatalogPacket.encode (.gameSB (.other 0x10)) = .ok [16] := by
      show enumEncode 0x10 (.ok []) = .ok [16]
      rw [enumEncode_ok, w16]
      rfl
    rw [henc]
    show Except.ok (writeVarI32 (natAsI32 1) ++ [16], MinecraftCodec.new) = _
    rw [w1]
    rfl
  · rfl

/-- C2 amended: for every catalog packet P that is well formed — string
fields valid UTF-8 and within their maximums, numeric fields in range,
`Game::Other` ids not colliding with the decoded plugin-message ids
0x10/0x18, the black-box NBT reader consuming exactly a
`RegistryData` tag — and whose encoded body `b` is shorter than `2^31`
bytes, encoding P on a codec with compression and encryption disabled
and feeding the produced bytes to `accept` + `next_packet` yields
exactly P and leaves the receive buffer (indeed the whole codec state)
as fresh. -/
theorem catalog_roundtrip_uncompressed (deflate : Bytes → Bytes)
    (encrypt decrypt : Bytes → Bytes → Bytes) (inflate : Bytes → Except DecodeError Bytes)
    (nbtDec : Bytes → Except DecodeError (Bytes × Bytes)) (P : CatalogPacket)
    (hwf : CatalogPacket.wfWith nbtDec P) (b : Bytes)
    (henc : CatalogPacket.encode P = .ok b) (hlen : b.length < 2 ^ 31) :
    MinecraftCodec.encode deflate encrypt (CatalogPacket.encode P) [] MinecraftCodec.new
        = .ok (writeVarI32 (natAsI32 b.length) ++ b, MinecraftCodec.new) ∧
      MinecraftCodec.nextPacket (PacketFamily.decode nbtDec P.family) inflate
          (MinecraftCodec.accept decrypt (writeVarI32 (natAsI32 b.length) ++ b)
            MinecraftCodec.new)
        = (.ok (some P), MinecraftCodec.new) := by
  obtain ⟨b2, hb1, hb2⟩ := CatalogPacket_rt nbtDec P hwf
  have hbb : b2 = b := by
    rw [henc] at hb1
    exact (Except.ok.inj hb1).symm
  subst hbb
  have := codec_roundtrip_frame deflate encrypt decrypt inflate
    (PacketFamily.decode nbtDec P.family) b2 P [] hlen hb2
  exact ⟨by rw [henc]; exact this.1, this.2⟩

/-- Witness for `catalog_roundtrip_uncompressed` at the concrete packet
`StatusServerBoundPacket::StatusRequest` (frame `[0x01, 0x00]`). -/
theorem catalog_roundtrip_uncompressed_witness :
    (CatalogPacket.wfWith (fun s => .ok ([], s)) (.statusSB .statusRequest) ∧
        CatalogPacket.encode (.statusSB .statusRequest) = .ok [0] ∧
        ([0] : Bytes).length < 2 ^ 31) ∧
      MinecraftCodec.encode (fun z => z) (fun _ o => o)
          (CatalogPacket.encode (.statusSB .statusRequest)) [] MinecraftCodec.new
        = .ok (writeVarI32 (natAsI32 ([0] : Bytes).length) ++ [0], MinecraftCodec.new) ∧
      MinecraftCodec.nextPacket
          (PacketFamily.decode (fun s => .ok ([], s)) (CatalogPacket.statusSB .statusRequest).family)
          (fun z => .ok z)
          (MinecraftCodec.accept (fun _ b => b)
            (writeVarI32 (natAsI32 ([0] : Bytes).length) ++ [0]) MinecraftCodec.new)
        = (.ok (some (.statusSB .statusRequest)), MinecraftCodec.new) := by
  have henc : CatalogPacket.encode (.statusSB .statusRequest) = .ok [0] := by
    show enumEncode 0x00 (.ok []) = .ok [0]
    rw [enumEncode_ok, writeVarI32, (by norm_num : ((0 : Nat) : Int) = (0 : Int)),
      (by decide : toUnsigned 32 (0 : Int) = 0), encodeVarLoop]
    norm_num
  have thm := catalog_roundtrip_uncompressed (fun z => z) (fun _ o => o) (fun _ b => b)
    (fun z => .ok z) (fun s => .ok ([], s)) (.statusSB .statusRequest) trivial [0] henc
    (by norm_num)
  exact ⟨⟨trivial, henc, by norm_num⟩, thm.1, thm.2⟩

end MCProxy

namespace MCProxy

/-! ### The whitelist command (`commands/handler.rs`, `repository/whitelist.rs`) -/

/-- Source model: the key-value repository behind the whitelist flag
(`repository/kv.rs`, a SQL-backed string store) as a string map. -/
def KvStore := String → Option String

/-- Source model: `KeyValueRepository::get`. -/
def kvGet (key : String) (st : KvStore) : Option String := st key

/-- Source model: `KeyValueRepository::set`. -/
def kvSet (key value : String) (st : KvStore) : KvStore :=
  fun k => if k = key then some value else st k

/-- Source model: `SqlxWhitelistRepository::is_enabled`: the value
stored under `whitelist.enabled`, mapped with
`map_or(false, |v| v == "true")`. -/
def whitelistIsEnabled (st : KvStore) : Bool :=
  ((kvGet "whitelist.enabled" st).map (fun v => v == "true")).getD false

/-- Source model: `SqlxWhitelistRepository::set_enabled`: stores the
string `"true"` or `"false"` under `whitelist.enabled`. -/
def whitelistSetEnabled (enabled : Bool) (st : KvStore) : KvStore :=
  kvSet "whitelist.enabled" (if enabled then "true" else "false") st

/-- Source model: `commands/mod.rs` `ChangedMessage`. -/
structure ChangedMessage where
  changed : Bool
  deriving DecidableEq, Repr

/-- Source model: the `CommandRequest::SetWhitelistEnabled` arm of
`handle_command` in `commands/handler.rs`: reads the current flag,
stores the requested one, and answers with
`changed: before_enabled == set_enabled.enabled`. -/
def handleSetWhitelistEnabled (enabled : Bool) (st : KvStore) : ChangedMessage × KvStore :=
  let beforeEnabled := whitelistIsEnabled st
  let st := whitelistSetEnabled enabled st
  (⟨beforeEnabled == enabled⟩, st)

/-- C7: for every `SET_WHITELIST_ENABLED` command with requested value
`e`, the handler sets the whitelist-enabled flag to `e` and returns a
response whose `changed` field equals `(previous enabled value == e)` —
true exactly when the stored value already equalled the requested
one. -/
theorem set_whitelist_enabled_changed (st : KvStore) (e : Bool) :
    (handleSetWhitelistEnabled e st).1.changed = (whitelistIsEnabled st == e) ∧
      whitelistIsEnabled (handleSetWhitelistEnabled e st).2 = e := by
  constructor
  · rfl
  · show whitelistIsEnabled
      (kvSet "whitelist.enabled" (if e then "true" else "false") st) = e
    have h : kvGet "whitelist.enabled"
        (kvSet "whitelist.enabled" (if e then "true" else "false") st) =
          some (if e then "true" else "false") := by
      simp [kvGet, kvSet]
    rw [whitelistIsEnabled, h]
    cases e <;> rfl

end MCProxy

namespace MCProxy

/-! ### The frame reader and its callers (`utils/mod.rs`, `handler/`) -/

/-- UTF-8 bytes of the ASCII string constants of `handler/login.rs`. -/
def asciiBytes (s : String) : Bytes :=
  s.toList.map Char.toNat

/-- Source model: the `PLAYER_EXISTS_MSG` constant of
`handler/login.rs`, as its UTF-8 bytes. -/
def playerExistsMsg : Bytes :=
  asciiBytes "\x7b\"text\":\"There is already a logged in player with this username\"\x7d"

/-- Source model: the disconnect reason built in `handle_login_start`
for a banned player: `"Banned! Reason: {reason}"` when the ban record
carries a reason, plain `"Banned!"` otherwise. -/
def banMessage : Option Bytes → Bytes
  | some reason => asciiBytes "Banned! Reason: " ++ reason
  | none => asciiBytes "Banned!"

/-- Source model: `utils::encode_packet` composed with the `.unwrap()`
at its call sites (`write_packet`): the frame is the VarInt of the body
length (`as i32`) followed by the body.  The `unwrap` panic path (an
encode failure) cannot be reached by the frames the proxy emits and is
modelled by the empty byte string. -/
def encodePacketUnwrap (body : Except EncodeError Bytes) : Bytes :=
  match body with
  | .ok buf => writeVarI32 (natAsI32 buf.length) ++ buf
  | .error _ => []

/-- Source model: `utils::read_packet`: a frame length read with
`read_var_i32_async`; `Ok(None)` when the length is zero or negative,
with no payload bytes consumed; otherwise exactly `length` payload
bytes, re-prefixed with the length VarInt when `encode_length` is set
(the source also guards the rebuilt vector against being empty). -/
def readPacket (encodeLength : Bool) (s : Bytes) :
    Except DecodeError (Option Bytes × Bytes) := do
  let (length, s) ← readVarI32Async s
  if length = 0 ∨ 0 > length then
    .ok (none, s)
  else do
    let (buf, s) ← readExact (usizeOfI32 length) s
    if encodeLength then
      let vec := writeVarI32 length ++ buf
      if vec = [] then .ok (none, s) else .ok (some vec, s)
    else
      .ok (some buf, s)

/-- Source model: `handler/handshake.rs` `handle_handshake`: one frame
read with `read_packet(..., false)`; a `None` result is turned into
`Err(InvalidPacketLength)` by the `ok_or`; the body is decoded as a
`HandshakeServerBoundPacket` and the inner `Handshake` returned. -/
def handleHandshake (s : Bytes) : Except DecodeError Handshake := do
  let (v, _) ← readPacket false s
  match v with
  | none => .error .invalidPacketLength
  | some vec => do
    let (packet, _) ← HandshakeServerBoundPacket.decode vec
    match packet with
    | .handshake h => .ok h

/-- Source model: one iteration of the `handler/status.rs`
`handle_status` loop.  `none` means the loop broke at its head
(`read_packet` returned `Ok(None)`) with nothing written; otherwise the
frames written to the client, whether the loop then breaks (it does
after a ping response), and the unread remainder of the stream.  The
`ServerStatus` JSON built from global state is the `serverStatus`
parameter. -/
def handleStatusStep (serverStatus : Bytes) (s : Bytes) :
    Except DecodeError (Option (List Bytes × Bool × Bytes)) := do
  let (v, s) ← readPacket false s
  match v with
  | none => .ok none
  | some vec => do
    let (packet, _) ← StatusServerBoundPacket.decode vec
    match packet with
    | .statusRequest =>
      .ok (some ([encodePacketUnwrap
        (StatusClientBoundPacket.encode (.statusResponse ⟨serverStatus⟩))], false, s))
    | .pingRequest req =>
      .ok (some ([encodePacketUnwrap
        (StatusClientBoundPacket.encode (.pingResponse ⟨req.time⟩))], true, s))

/-- Source model: `handler/login.rs` `handle_login_start`.  The online
player set and the ban repository (external state behind
`GlobalSharedState`) are the `onlineExists` and `userBan` parameters —
`userBan name = some reason` is a ban record with optional reason text;
the repository error path is not modelled.  Returns the optional
accepted `LoginStart` and the disconnect frames written. -/
def handleLoginStart (onlineExists : Bytes → Bool)
    (userBan : Bytes → Option (Option Bytes)) (s : Bytes) :
    Except DecodeError (Option LoginStart × List Bytes) := do
  let (v, _) ← readPacket false s
  match v with
  | none => .ok (none, [])
  | some vec => do
    let (packet, _) ← LoginServerBoundPacket.decode vec
    match packet with
    | .loginStart ls =>
      if onlineExists ls.name then
        .ok (none, [encodePacketUnwrap (LoginClientBoundPacket.encode
          (.loginDisconnect ⟨playerExistsMsg⟩))])
      else
        match userBan ls.name with
        | some reason =>
          .ok (none, [encodePacketUnwrap (LoginClientBoundPacket.encode
            (.loginDisconnect ⟨banMessage reason⟩))])
        | none => .ok (some ls, [])
    | _ => .ok (none, [])

/-- Source model: the read branch of one `handler/proxy.rs`
`handle_client` loop iteration: a frame read with
`read_packet(..., true)`; `none` breaks the loop; otherwise the frame
is decoded with the session codec (the `decodeClient` parameter) purely
for state tracking and logging, and the raw bytes are forwarded to the
server regardless of the decode outcome. -/
def handleClientStep {α : Type _} (decodeClient : Bytes → Except DecodeError (Option α))
    (s : Bytes) : Except DecodeError (Option (Bytes × Bytes)) := do
  let (v, rest) ← readPacket true s
  match v with
  | none => .ok none
  | some vec =>
    let _ := decodeClient vec
    .ok (some (vec, rest))

/-- Result of one server-relay iteration: a frame forwarded raw to the
client, or a `basileia:proxy` plugin-message payload diverted to the
command channel. -/
inductive ServerRelayAction where
  | forward (raw : Bytes)
  | divert (data : Bytes)
  deriving DecidableEq, Repr

/-- Source model: one `handler/proxy.rs` `handle_server` loop
iteration: `none` breaks the loop; a decoded client-bound plugin
message on the `basileia:proxy` channel (`proxyChannelData` yielding
its data) is diverted and not forwarded; every other frame — including
ones the session codec (`decodeServer`) fails to decode — is forwarded
raw to the client.  The login-success, set-compression and
finish-configuration state updates are outside this step's scope. -/
def handleServerStep {α : Type _} (decodeServer : Bytes → Except DecodeError (Option α))
    (proxyChannelData : α → Option Bytes) (s : Bytes) :
    Except DecodeError (Option (ServerRelayAction × Bytes)) := do
  let (v, rest) ← readPacket true s
  match v with
  | none => .ok none
  | some vec =>
    match decodeServer vec with
    | .ok (some packet) =>
      match proxyChannelData packet with
      | some data => .ok (some (.divert data, rest))
      | none => .ok (some (.forward vec, rest))
    | _ => .ok (some (.forward vec, rest))

/-- C10 counterexample: on the zero-length frame `[0x00]`,
`read_packet` does return `Ok(None)`, but the handshake handler does
not treat it as a silent end-of-stream: `handle_handshake` fails with
`InvalidPacketLength`, which is not an EOF-class error. -/
theorem handshake_zero_frame_error :
    readPacket false [0] = .ok (none, []) ∧
      handleHandshake [0] = .error .invalidPacketLength ∧
      DecodeError.invalidPacketLength.isEofError = false := by
  exact ⟨rfl, rfl, rfl⟩

/-- C10 amended: `read_packet` yields `Ok(None)` whenever the decoded
frame-length VarInt is zero or negative, consuming no payload bytes;
the status and login handlers and both proxy relayers treat that
`Ok(None)` as end-of-stream and stop silently, but the handshake
handler instead turns it into an `InvalidPacketLength` error, so a
zero-length first frame fails the handshake rather than silently
terminating the exchange. -/
theorem read_packet_zero_length_eos :
    (∀ (b : Bool) (s rest : Bytes) (L : Int),
        readVarI32Async s = .ok (L, rest) → L ≤ 0 →
        readPacket b s = .ok (none, rest)) ∧
      (∀ st junk, handleStatusStep st (0 :: junk) = .ok none) ∧
      (∀ oe ub junk, handleLoginStart oe ub (0 :: junk) = .ok (none, [])) ∧
      (∀ (dc : Bytes → Except DecodeError (Option Nat)) junk,
        handleClientStep dc (0 :: junk) = .ok none) ∧
      (∀ (ds : Bytes → Except DecodeError (Option Nat)) (pc : Nat → Option Bytes) junk,
        handleServerStep ds pc (0 :: junk) = .ok none) ∧
      (∀ junk, handleHandshake (0 :: junk) = .error .invalidPacketLength) := by
  refine ⟨?_, ?_, ?_, ?_, ?_, ?_⟩
  · intro b s rest L h hL
    rw [readPacket, h]
    simp only [except_bind_ok]
    rw [if_pos (show L = 0 ∨ 0 > L by omega)]
  · intro st junk
    rfl
  · intro oe ub junk
    rfl
  · intro dc junk
    rfl
  · intro ds pc junk
    rfl
  · intro junk
    rfl

/-- C10 witness: the zero-length frame followed by a stray byte is
consumed up to the length VarInt only. -/
theorem read_packet_zero_length_eos_witness :
    readPacket true [0, 7] = .ok (none, [7]) :=
  read_packet_zero_length_eos.1 true [0, 7] [7] 0 (by decide) (by norm_num)

end MCProxy

namespace MCProxy

/-- C6: `LoginStart` reads its `uuid` field as a length-prefixed string
of maximum length 36 that is parsed as a hyphenated UUID, not as 16 raw
bytes: the name `"Bob"` followed by the 36-character text
`c676f0db-9695-4fcd-a3cc-d75f129fde7f` decodes to the 16 parsed uuid
bytes; a 37-byte uuid string is rejected with `StringTooLong(37, 36)`;
and the 16 raw uuid bytes placed where the string belongs are misread
as a VarInt string length (15174) and rejected. -/
theorem login_start_uuid_hyphenated_string :
    LoginStart.decode ([3, 66, 111, 98, 36] ++
        [99, 54, 55, 54, 102, 48, 100, 98, 45, 57, 54, 57, 53, 45, 52, 102,
          99, 100, 45, 97, 51, 99, 99, 45, 100, 55, 53, 102, 49, 50, 57, 102,
          100, 101, 55, 102])
      = .ok (⟨[66, 111, 98],
          [198, 118, 240, 219, 150, 149, 79, 205, 163, 204, 215, 95, 18, 159,
            222, 127]⟩, []) ∧
      LoginStart.decode ([3, 66, 111, 98, 37] ++ List.replicate 37 97)
        = .error (.stringTooLong 37 36) ∧
      LoginStart.decode ([3, 66, 111, 98] ++
          [198, 118, 240, 219, 150, 149, 79, 205, 163, 204, 215, 95, 18, 159,
            222, 127])
        = .error (.stringTooLong 15174 36) := by
  exact ⟨by decide, by decide, by decide⟩

end MCProxy
